import Mathlib

/-!
Verification of the conversations-history API (`src/main.py`, `src/models.py`,
`src/s3_utils.py`) against its natural-language specification.

The embedding models Python/JSON values with the inductive `PyVal`
(Python tuples are kept distinct from lists, since cache keys compare them
by value; list and dict payloads are mutual inductives so that decidable
equality stays kernel-computable), S3 storage as an association list from
string keys to documents, and the module-level TTL cache as an association
list from cache keys to cached values (TTL expiry is modeled by simply not
including expired entries).  Exceptions are modeled with `Except HErr`.
-/

namespace ConvHist

mutual
/-- A Python/JSON value as manipulated by the service: `json.loads` output
plus the tuples the code builds for cache keys. -/
inductive PyVal : Type where
  | none : PyVal
  | bool (b : Bool) : PyVal
  | int (n : Int) : PyVal
  | str (s : String) : PyVal
  | list (l : PyListV) : PyVal
  | tup (l : PyListV) : PyVal
  | dict (d : PyDictV) : PyVal
  deriving DecidableEq

/-- Spine of a Python list/tuple of `PyVal`s. -/
inductive PyListV : Type where
  | nil : PyListV
  | cons (hd : PyVal) (tl : PyListV) : PyListV
  deriving DecidableEq

/-- Spine of a Python dict with string keys. -/
inductive PyDictV : Type where
  | dnil : PyDictV
  | dcons (k : String) (v : PyVal) (tl : PyDictV) : PyDictV
  deriving DecidableEq
end

def PyListV.toList : PyListV → List PyVal
  | .nil => []
  | .cons x t => x :: t.toList

def PyListV.ofList : List PyVal → PyListV
  | [] => .nil
  | x :: t => .cons x (PyListV.ofList t)

def PyDictV.toPairs : PyDictV → List (String × PyVal)
  | .dnil => []
  | .dcons k v t => (k, v) :: t.toPairs

def PyDictV.ofPairs : List (String × PyVal) → PyDictV
  | [] => .dnil
  | (k, v) :: t => .dcons k v (PyDictV.ofPairs t)

/-- Build a Python list value from a Lean list. -/
def plist (l : List PyVal) : PyVal := .list (PyListV.ofList l)

/-- Build a Python tuple value from a Lean list. -/
def ptup (l : List PyVal) : PyVal := .tup (PyListV.ofList l)

/-- Build a Python dict value from a Lean association list. -/
def pdict (l : List (String × PyVal)) : PyVal := .dict (PyDictV.ofPairs l)

@[simp] theorem toList_ofList (l : List PyVal) : (PyListV.ofList l).toList = l := by
  induction l with
  | nil => rfl
  | cons x t ih => simp [PyListV.ofList, PyListV.toList, ih]

@[simp] theorem toPairs_ofPairs (l : List (String × PyVal)) :
    (PyDictV.ofPairs l).toPairs = l := by
  induction l with
  | nil => rfl
  | cons kv t ih => obtain ⟨k, v⟩ := kv; simp [PyDictV.ofPairs, PyDictV.toPairs, ih]

theorem ofList_injective {l l' : List PyVal}
    (h : PyListV.ofList l = PyListV.ofList l') : l = l' := by
  have := congrArg PyListV.toList h
  simpa using this

theorem ofPairs_injective {l l' : List (String × PyVal)}
    (h : PyDictV.ofPairs l = PyDictV.ofPairs l') : l = l' := by
  have := congrArg PyDictV.toPairs h
  simpa using this

@[simp] theorem plist_inj {l l' : List PyVal} : plist l = plist l' ↔ l = l' := by
  constructor
  · intro h
    exact ofList_injective (PyVal.list.inj h)
  · intro h; rw [h]

@[simp] theorem ptup_inj {l l' : List PyVal} : ptup l = ptup l' ↔ l = l' := by
  constructor
  · intro h
    exact ofList_injective (PyVal.tup.inj h)
  · intro h; rw [h]

@[simp] theorem pdict_inj {l l' : List (String × PyVal)} : pdict l = pdict l' ↔ l = l' := by
  constructor
  · intro h
    exact ofPairs_injective (PyVal.dict.inj h)
  · intro h; rw [h]

/-- Dictionary lookup (Python `d[k]` / `k in d` on dicts).  Documents coming
from `json.loads` have unique keys; lookup returns the first match. -/
def dlookup (k : String) : List (String × PyVal) → Option PyVal
  | [] => Option.none
  | (k', v) :: rest => if k' = k then Option.some v else dlookup k rest

theorem dlookup_eq_none_of_not_mem {k : String} {l : List (String × PyVal)}
    (h : k ∉ l.map Prod.fst) : dlookup k l = Option.none := by
  induction l with
  | nil => rfl
  | cons kv rest ih =>
    obtain ⟨k', v⟩ := kv
    simp only [List.map_cons, List.mem_cons] at h
    push_neg at h
    unfold dlookup
    rw [if_neg (fun hh => h.1 hh.symm), ih h.2]

/-- Python `needle in hay` for strings (substring containment), on char
lists.  An empty needle is contained in everything, as in Python. -/
def strConAux (needle : List Char) : List Char → Bool
  | [] => needle.isEmpty
  | c :: rest => needle.isPrefixOf (c :: rest) || strConAux needle rest

/-- Python `needle in hay` substring test on `String`. -/
def strContains (hay needle : String) : Bool :=
  strConAux needle.data hay.data

theorem strConAux_iff_infix {needle hay : List Char} :
    strConAux needle hay = true ↔ needle <:+: hay := by
  induction hay with
  | nil =>
    simp [strConAux, List.isEmpty_iff]
  | cons c rest ih =>
    simp only [strConAux, Bool.or_eq_true, ih]
    constructor
    · rintro (h | h)
      · exact (List.isPrefixOf_iff_prefix.mp h).isInfix
      · exact List.infix_cons h
    · intro h
      rcases h with ⟨pre, suf, hps⟩
      cases pre with
      | nil =>
        left
        exact List.isPrefixOf_iff_prefix.mpr ⟨suf, by simpa using hps⟩
      | cons p ps =>
        right
        rw [List.cons_append, List.cons_append] at hps
        injection hps with h1 h2
        exact ⟨ps, suf, h2⟩

/-- Python `s.split(sep)` for a one-character separator: splits at every
occurrence, keeping empty pieces; `"".split(sep) = [""]`. -/
def pySplitChar (sep : Char) : List Char → List (List Char)
  | [] => [[]]
  | c :: rest =>
    if c = sep then [] :: pySplitChar sep rest
    else
      match pySplitChar sep rest with
      | t :: ts => (c :: t) :: ts
      | [] => [[c]]

theorem pySplitChar_ne_nil (sep : Char) (s : List Char) :
    pySplitChar sep s ≠ [] := by
  induction s with
  | nil => simp [pySplitChar]
  | cons c rest ih =>
    by_cases h : c = sep
    · simp [pySplitChar, h]
    · simp only [pySplitChar, if_neg h]
      cases hs : pySplitChar sep rest with
      | nil => simp
      | cons t ts => simp

/-- The first piece produced by the split is a prefix of the original. -/
theorem pySplitChar_head_prefix {sep : Char} {s : List Char} {t : List Char}
    {ts : List (List Char)} (h : pySplitChar sep s = t :: ts) : t <+: s := by
  induction s generalizing t ts with
  | nil =>
    simp [pySplitChar] at h
    exact h.1 ▸ List.nil_prefix
  | cons c rest ih =>
    by_cases hc : c = sep
    · simp [pySplitChar, hc] at h
      exact h.1 ▸ List.nil_prefix
    · simp only [pySplitChar, if_neg hc] at h
      cases hs : pySplitChar sep rest with
      | nil => exact absurd hs (pySplitChar_ne_nil sep rest)
      | cons u us =>
        rw [hs] at h
        have ht : t = c :: u := by
          have h' := h
          simp at h'
          exact h'.1.symm
        subst ht
        exact List.cons_prefix_cons.mpr ⟨rfl, ih hs⟩

/-- Every piece produced by the split is an infix of the original string. -/
theorem pySplitChar_infix {sep : Char} {s : List Char} {t : List Char}
    (h : t ∈ pySplitChar sep s) : t <:+: s := by
  induction s generalizing t with
  | nil =>
    simp [pySplitChar] at h
    subst h
    exact List.infix_rfl
  | cons c rest ih =>
    by_cases hc : c = sep
    · simp [pySplitChar, hc] at h
      rcases h with h | h
      · subst h
        exact List.nil_infix
      · exact List.infix_cons (ih h)
    · simp only [pySplitChar, if_neg hc] at h
      cases hs : pySplitChar sep rest with
      | nil => exact absurd hs (pySplitChar_ne_nil sep rest)
      | cons u us =>
        rw [hs] at h
        simp at h
        rcases h with h | h
        · subst h
          have hu : u <+: rest := pySplitChar_head_prefix hs
          rcases hu with ⟨suf, hsuf⟩
          exact ⟨[], suf, by simp [← hsuf]⟩
        · have hmem : t ∈ pySplitChar sep rest := by
            rw [hs]; exact List.mem_cons_of_mem u h
          exact List.infix_cons (ih hmem)

/-- Characters of a Python string before the first `'.'`; equals
`s.split('.')[0]`. -/
def headDot : List Char → List Char
  | [] => []
  | c :: rest => if c = '.' then [] else c :: headDot rest

/-- Characters of a Python string after the first `'.'`, if any; equals
`'.'.join(s.split('.')[1:])` when the string contains a dot. -/
def tailAfterDot : List Char → Option (List Char)
  | [] => Option.none
  | c :: rest => if c = '.' then Option.some rest else tailAfterDot rest

/-- `parts[0]` of `field.split('.')` in the Python code. -/
def headOf (f : String) : String := ⟨headDot f.data⟩

/-- `'.'.join(parts[1:])` of `field.split('.')` when `len(parts) > 1`. -/
def tailOf (f : String) : Option String := (tailAfterDot f.data).map String.mk

/-- Number of dots in a field path; bounds the recursion depth of the
field projector. -/
def dotCount (f : String) : Nat := f.data.count '.'

theorem tailAfterDot_count {s t : List Char} (h : tailAfterDot s = some t) :
    t.count '.' < s.count '.' := by
  induction s with
  | nil => simp [tailAfterDot] at h
  | cons c rest ih =>
    by_cases hc : c = '.'
    · simp [tailAfterDot, hc] at h
      subst h
      simp [hc, List.count_cons]
    · simp [tailAfterDot, hc] at h
      have := ih h
      simp [List.count_cons, hc]
      omega

theorem tailOf_dotCount {f t : String} (h : tailOf f = some t) :
    dotCount t < dotCount f := by
  unfold tailOf at h
  cases hh : tailAfterDot f.data with
  | none => rw [hh] at h; simp at h
  | some u =>
    rw [hh] at h
    simp at h
    subst h
    exact tailAfterDot_count hh

/-! ## The field projector (`filter_nested_fields`, main.py lines 52-93) -/

/-- `default_conversation_fields` (main.py line 38). -/
def default_conversation_fields : List String :=
  ["id", "createdBy", "createdAt", "updatedAt", "status", "summaryText", "summaryType",
    "blockIds"]

/-- `default_block_fields` (main.py line 39). -/
def default_block_fields : List String :=
  ["id", "inputText", "responseIds", "createdBy", "createdAt"]

/-- `default_response_fields` (main.py line 40). -/
def default_response_fields : List String :=
  ["id", "source", "responseType", "requestedAt"]

/-- The `nested_default_fields` table of `filter_nested_fields`; keys not in
the table give `[]` (the code's `nested_default_fields.get(key, [])`). -/
def nestedDefaults (k : String) : List String :=
  if k = "blocks" then default_block_fields
  else if k = "responses" then default_response_fields
  else []

/-- `parts[0] in nested_default_fields` in the code. -/
def isNestedKey (k : String) : Bool := k = "blocks" || k = "responses"

/-- The `include_fields` set: the default fields, plus the nested entities'
default field names for every requested path whose head is a nested key
(the code folds them into the same top-level set).  Python's set is
determinized as a deduplicated list; every property proved below is
insensitive to the enumeration order. -/
def includeFields (df af : List String) : List String :=
  (df ++ af.foldr (fun f acc =>
      (if isNestedKey (headOf f) then nestedDefaults (headOf f) else []) ++ acc) []).dedup

/-- `include_fields | additional_fields_set`: the fields the code iterates
over to build `field_parts`. -/
def allFields (df af : List String) : List String :=
  (includeFields df af ++ af).dedup

/-- `field_parts`: requested paths grouped by their top-level segment; the
value is the list of remaining dotted suffixes (empty for undotted
fields). -/
def fpartsFor (df af : List String) : List (String × List String) :=
  (((allFields df af).map headOf).dedup).map
    (fun k => (k, (allFields df af).filterMap
      (fun f => if headOf f = k then tailOf f else Option.none)))

/-- One Python `==` comparison between a string key and an arbitrary value
(used by `key in data` when `data` is a list or tuple): only equal strings
compare equal. -/
def pyStrEq (x : PyVal) (k : String) : Bool :=
  match x with
  | .str s => decide (s = k)
  | _ => false

/-- `Option`-valued elementwise traversal of a list, failing if any element
fails (the behavior of the Python list comprehension when the body may
raise). -/
def optMapM (f : PyVal → Option PyVal) : List PyVal → Option (List PyVal)
  | [] => some []
  | x :: xs =>
    match f x with
    | Option.none => Option.none
    | some y => (optMapM f xs).map (fun ys => y :: ys)

/-- The value stored for one key of `field_parts`: verbatim when there are
no deeper suffixes, otherwise the recursive projection (elementwise for
list values, direct otherwise), with the nested entity's defaults. -/
def entryVal (f : PyVal → List String → List String → Option PyVal)
    (k : String) (tails : List String) (v : PyVal) : Option PyVal :=
  if tails = [] then some v
  else match v with
    | .list xs => (optMapM (fun x => f x (nestedDefaults k) tails) xs.toList).map plist
    | _ => f v (nestedDefaults k) tails

/-- The body of `filter_nested_fields`' final loop for one already-computed
`field_parts`, parametrised by the recursive call `f`.  For each
`(key, nested_fields)`: skip keys absent from the dict, copy values with no
nested suffixes verbatim, recurse elementwise into list values and directly
into any other value.  `Option.none` models an uncaught `TypeError`. -/
def entriesGo (f : PyVal → List String → List String → Option PyVal)
    (l : List (String × PyVal)) : List (String × List String) → Option (List (String × PyVal))
  | [] => some []
  | (k, tails) :: fps =>
    match dlookup k l with
    | Option.none => entriesGo f l fps
    | some v =>
      match entryVal f k tails v with
      | Option.none => Option.none
      | some w => (entriesGo f l fps).map (fun rest => (k, w) :: rest)

/-- One level of `filter_nested_fields`, parametrised by the recursive
call.  Non-dict data reproduces Python's dynamic behavior of
`if key in data: value = data[key]`: on strings `in` is substring test and
indexing raises, on lists/tuples `in` is membership and indexing raises,
on other values `in` itself raises (whenever `field_parts` is non-empty). -/
def pyFilterStep (f : PyVal → List String → List String → Option PyVal)
    (data : PyVal) (df af : List String) : Option PyVal :=
  let fp := fpartsFor df af
  match data with
  | .dict d => (entriesGo f d.toPairs fp).map pdict
  | .str s =>
    if fp.any (fun kt => strConAux kt.1.data s.data) then Option.none else some (pdict [])
  | .list xs =>
    if fp.any (fun kt => xs.toList.any (fun x => pyStrEq x kt.1)) then Option.none
    else some (pdict [])
  | .tup xs =>
    if fp.any (fun kt => xs.toList.any (fun x => pyStrEq x kt.1)) then Option.none
    else some (pdict [])
  | _ => if fp.isEmpty then some (pdict []) else Option.none

/-- Fuelled `filter_nested_fields`; recursion only happens through dotted
suffixes, so fuel exceeding the maximal dot count never runs out. -/
def pyFilterF : Nat → PyVal → List String → List String → Option PyVal
  | 0, _, _, _ => Option.none
  | n + 1, data, df, af => pyFilterStep (pyFilterF n) data df af

/-- Fuel sufficient for `filter_nested_fields` on the given field lists. -/
def filterFuel (df af : List String) : Nat :=
  ((df ++ af).map dotCount).foldr max 0 + 1

/-- `filter_nested_fields(data, default_fields, additional_fields)`
(main.py lines 52-93).  `Option.none` models an uncaught `TypeError`
raised by the dynamic `in`/indexing operations. -/
def filter_nested_fields (data : PyVal) (df af : List String) : Option PyVal :=
  pyFilterF (filterFuel df af) data df af

/-! ## Projector lemmas -/

@[simp] theorem dlookup_nil (k : String) : dlookup k [] = Option.none := rfl

@[simp] theorem dlookup_cons_self {k : String} {v : PyVal} {l : List (String × PyVal)} :
    dlookup k ((k, v) :: l) = some v := by simp [dlookup]

theorem dlookup_cons_ne {k k' : String} {v : PyVal} {l : List (String × PyVal)}
    (h : k' ≠ k) : dlookup k ((k', v) :: l) = dlookup k l := by simp [dlookup, h]

theorem fparts_keys_nodup (df af : List String) :
    ((fpartsFor df af).map Prod.fst).Nodup := by
  unfold fpartsFor
  rw [List.map_map]
  have hcomp : (Prod.fst ∘ fun k => (k, (allFields df af).filterMap
      (fun f => if headOf f = k then tailOf f else Option.none))) = id := rfl
  rw [hcomp, List.map_id]
  exact List.nodup_dedup _

theorem optMapM_length {f : PyVal → Option PyVal} :
    ∀ {xs ys : List PyVal}, optMapM f xs = some ys → ys.length = xs.length := by
  intro xs
  induction xs with
  | nil => intro ys h; simp [optMapM] at h; simp [← h]
  | cons x xs ih =>
    intro ys h
    unfold optMapM at h
    cases hx : f x with
    | none => rw [hx] at h; simp at h
    | some y =>
      rw [hx] at h
      cases hxs : optMapM f xs with
      | none => rw [hxs] at h; simp at h
      | some ys' =>
        rw [hxs] at h
        simp at h
        subst h
        simp [ih hxs]

theorem optMapM_from_mem {f : PyVal → Option PyVal} :
    ∀ {xs ys : List PyVal}, optMapM f xs = some ys → ∀ y ∈ ys, ∃ x ∈ xs, f x = some y := by
  intro xs
  induction xs with
  | nil => intro ys h y hy; simp [optMapM] at h; subst h; simp at hy
  | cons x xs ih =>
    intro ys h y hy
    unfold optMapM at h
    cases hx : f x with
    | none => rw [hx] at h; simp at h
    | some y' =>
      rw [hx] at h
      cases hxs : optMapM f xs with
      | none => rw [hxs] at h; simp at h
      | some ys' =>
        rw [hxs] at h
        simp at h
        subst h
        rcases List.mem_cons.mp hy with hy | hy
        · exact ⟨x, List.mem_cons_self x xs, hy ▸ hx⟩
        · obtain ⟨x', hx', hfx'⟩ := ih hxs y hy
          exact ⟨x', List.mem_cons_of_mem x hx', hfx'⟩

theorem optMapM_congr_id {f : PyVal → Option PyVal} :
    ∀ {xs : List PyVal}, (∀ x ∈ xs, f x = some x) → optMapM f xs = some xs := by
  intro xs
  induction xs with
  | nil => intro _; simp [optMapM]
  | cons x xs ih =>
    intro h
    unfold optMapM
    rw [h x (List.mem_cons_self x xs),
      ih (fun z hz => h z (List.mem_cons_of_mem x hz))]
    rfl

theorem optMapM_get {f : PyVal → Option PyVal} :
    ∀ {xs ys : List PyVal}, optMapM f xs = some ys →
      ∀ (i : Nat) (h : i < xs.length) (h' : i < ys.length),
        f (xs.get ⟨i, h⟩) = some (ys.get ⟨i, h'⟩) := by
  intro xs
  induction xs with
  | nil => intro ys h i hi; simp at hi
  | cons x xs ih =>
    intro ys h i hi hi'
    unfold optMapM at h
    cases hx : f x with
    | none => rw [hx] at h; simp at h
    | some y =>
      rw [hx] at h
      cases hxs : optMapM f xs with
      | none => rw [hxs] at h; simp at h
      | some ys' =>
        rw [hxs] at h
        simp at h
        subst h
        match i with
        | 0 => simpa using hx
        | Nat.succ j =>
          simp only [List.get_cons_succ]
          exact ih hxs j (by simpa using hi) (by simpa using hi')

theorem entriesGo_nil_left (f : PyVal → List String → List String → Option PyVal)
    (fp : List (String × List String)) : entriesGo f [] fp = some [] := by
  induction fp with
  | nil => rfl
  | cons kt fps ih => obtain ⟨k, t⟩ := kt; simp [entriesGo, ih]

theorem entriesGo_sublist {f : PyVal → List String → List String → Option PyVal}
    {l : List (String × PyVal)} :
    ∀ {fp : List (String × List String)} {out : List (String × PyVal)},
      entriesGo f l fp = some out → List.Sublist (out.map Prod.fst) (fp.map Prod.fst) := by
  intro fp
  induction fp with
  | nil => intro out h; simp [entriesGo] at h; simp [← h]
  | cons kt fps ih =>
    intro out h
    obtain ⟨k, t⟩ := kt
    cases hv : dlookup k l with
    | none =>
      simp only [entriesGo, hv] at h
      exact (ih h).trans (List.sublist_cons_self _ _)
    | some v =>
      cases hw : entryVal f k t v with
      | none => simp only [entriesGo, hv, hw] at h; exact absurd h (by simp)
      | some w =>
        simp only [entriesGo, hv, hw] at h
        cases hrest : entriesGo f l fps with
        | none => rw [hrest] at h; simp at h
        | some out' =>
          rw [hrest] at h
          simp at h
          subst h
          simpa using (ih hrest).cons₂ k

theorem entriesGo_lookup_not_mem {f : PyVal → List String → List String → Option PyVal}
    {l : List (String × PyVal)} {fp : List (String × List String)}
    {out : List (String × PyVal)} {k : String}
    (h : entriesGo f l fp = some out) (hk : k ∉ fp.map Prod.fst) :
    dlookup k out = Option.none :=
  dlookup_eq_none_of_not_mem (fun hmem => hk ((entriesGo_sublist h).mem hmem))

/-- Per-key characterization of a successful `entriesGo` run: keys absent
from the source dict stay absent from the output; keys present map to the
(successful) `entryVal` projection of their source value. -/
theorem entriesGo_lookup {f : PyVal → List String → List String → Option PyVal}
    {l : List (String × PyVal)} :
    ∀ {fp : List (String × List String)} {out : List (String × PyVal)},
      (fp.map Prod.fst).Nodup → entriesGo f l fp = some out →
      ∀ {k : String} {t : List String}, (k, t) ∈ fp →
        (dlookup k l = Option.none → dlookup k out = Option.none) ∧
        (∀ v, dlookup k l = some v →
          ∃ w, entryVal f k t v = some w ∧ dlookup k out = some w) := by
  intro fp
  induction fp with
  | nil => intro out _ _ k t hmem; simp at hmem
  | cons kt fps ih =>
    intro out hnd h k t hmem
    obtain ⟨k', t'⟩ := kt
    simp only [List.map_cons, List.nodup_cons] at hnd
    obtain ⟨hk', hnd'⟩ := hnd
    cases hv : dlookup k' l with
    | none =>
      simp only [entriesGo, hv] at h
      rcases List.mem_cons.mp hmem with heq | hmem'
      · injection heq with h1 h2
        subst h1; subst h2
        refine ⟨fun _ => entriesGo_lookup_not_mem h hk', fun v hv' => ?_⟩
        rw [hv] at hv'
        exact absurd hv' (by simp)
      · exact ih hnd' h hmem'
    | some v' =>
      cases hw : entryVal f k' t' v' with
      | none => simp only [entriesGo, hv, hw] at h; exact absurd h (by simp)
      | some w' =>
        simp only [entriesGo, hv, hw] at h
        cases hrest : entriesGo f l fps with
        | none => rw [hrest] at h; simp at h
        | some out' =>
          rw [hrest] at h
          simp at h
          subst h
          rcases List.mem_cons.mp hmem with heq | hmem'
          · injection heq with h1 h2
            subst h1; subst h2
            refine ⟨fun hnone => ?_, fun v hv2 => ?_⟩
            · rw [hv] at hnone; exact absurd hnone (by simp)
            · rw [hv] at hv2
              injection hv2 with hv2
              subst hv2
              exact ⟨w', hw, by simp⟩
          · have hkne : k ≠ k' := by
              intro hkk
              subst hkk
              exact hk' (List.mem_map.mpr ⟨(k, t), hmem', rfl⟩)
            have h1 := ih hnd' hrest hmem'
            rw [dlookup_cons_ne hkne.symm]
            exact h1

/-- `entriesGo` succeeds as soon as every present key's `entryVal`
succeeds. -/
theorem entriesGo_isSome {f : PyVal → List String → List String → Option PyVal}
    {l : List (String × PyVal)} :
    ∀ {fp : List (String × List String)},
      (∀ kt ∈ fp, ∀ v, dlookup kt.1 l = some v → (entryVal f kt.1 kt.2 v).isSome = true) →
      (entriesGo f l fp).isSome = true := by
  intro fp
  induction fp with
  | nil => intro _; simp [entriesGo]
  | cons kt fps ih =>
    intro hall
    obtain ⟨k, t⟩ := kt
    cases hv : dlookup k l with
    | none =>
      simp only [entriesGo, hv]
      exact ih (fun kt' hm v hv' => hall kt' (List.mem_cons_of_mem _ hm) v hv')
    | some v =>
      have hev := hall (k, t) (List.mem_cons_self _ _) v hv
      cases hw : entryVal f k t v with
      | none => rw [hw] at hev; simp at hev
      | some w =>
        simp only [entriesGo, hv, hw]
        have hrest := ih (fun kt' hm v' hv' => hall kt' (List.mem_cons_of_mem _ hm) v' hv')
        cases hr : entriesGo f l fps with
        | none => rw [hr] at hrest; simp at hrest
        | some out' => simp

/-- Re-running `entriesGo` on (a dict with the same lookups as) its own
output reproduces the output, provided each `entryVal` is idempotent. -/
theorem entriesGo_idem {f : PyVal → List String → List String → Option PyVal}
    {l : List (String × PyVal)} :
    ∀ {fp : List (String × List String)} {out : List (String × PyVal)},
      (fp.map Prod.fst).Nodup →
      (∀ k t v w, entryVal f k t v = some w → entryVal f k t w = some w) →
      entriesGo f l fp = some out →
      ∀ m : List (String × PyVal),
        (∀ k, k ∈ fp.map Prod.fst → dlookup k m = dlookup k out) →
        entriesGo f m fp = some out := by
  intro fp
  induction fp with
  | nil =>
    intro out _ _ h m _
    simp only [entriesGo] at h ⊢
    exact h
  | cons kt fps ih =>
    intro out hnd hval h m hm
    obtain ⟨k, t⟩ := kt
    simp only [List.map_cons, List.nodup_cons] at hnd
    obtain ⟨hk, hnd'⟩ := hnd
    cases hv : dlookup k l with
    | none =>
      simp only [entriesGo, hv] at h
      have hout : dlookup k out = Option.none := entriesGo_lookup_not_mem h hk
      have hmk : dlookup k m = Option.none := by
        rw [hm k (by simp), hout]
      simp only [entriesGo, hmk]
      exact ih hnd' hval h m (fun k' hk' => hm k' (by simp [hk']))
    | some v =>
      cases hw : entryVal f k t v with
      | none => simp only [entriesGo, hv, hw] at h; exact absurd h (by simp)
      | some w =>
        simp only [entriesGo, hv, hw] at h
        cases hrest : entriesGo f l fps with
        | none => rw [hrest] at h; simp at h
        | some out' =>
          rw [hrest] at h
          simp at h
          subst h
          have hmk : dlookup k m = some w := by
            rw [hm k (by simp)]; simp
          simp only [entriesGo, hmk, hval k t v w hw]
          have hcong : ∀ k', k' ∈ fps.map Prod.fst → dlookup k' m = dlookup k' out' := by
            intro k' hk'
            have hne : k' ≠ k := fun hkk => hk (hkk ▸ hk')
            rw [hm k' (by simp [hk']), dlookup_cons_ne hne.symm]
          rw [ih hnd' hval hrest m hcong]
          rfl

/-- Every successful projection returns a dict. -/
theorem pyFilterF_shape :
    ∀ {n : Nat} {d : PyVal} {df af : List String} {r : PyVal},
      pyFilterF n d df af = some r → ∃ out, r = pdict out := by
  intro n d df af r h
  cases n with
  | zero => exact absurd h (by simp [pyFilterF])
  | succ n =>
    cases d with
    | dict dd =>
      simp only [pyFilterF, pyFilterStep] at h
      cases he : entriesGo (pyFilterF n) dd.toPairs (fpartsFor df af) with
      | none => rw [he] at h; simp at h
      | some out => rw [he] at h; simp at h; exact ⟨out, h.symm⟩
    | str s =>
      simp only [pyFilterF, pyFilterStep] at h
      split at h
      · exact absurd h (by simp)
      · simp at h; exact ⟨[], h.symm⟩
    | list xs =>
      simp only [pyFilterF, pyFilterStep] at h
      split at h
      · exact absurd h (by simp)
      · simp at h; exact ⟨[], h.symm⟩
    | tup xs =>
      simp only [pyFilterF, pyFilterStep] at h
      split at h
      · exact absurd h (by simp)
      · simp at h; exact ⟨[], h.symm⟩
    | none =>
      simp only [pyFilterF, pyFilterStep] at h
      split at h
      · simp at h; exact ⟨[], h.symm⟩
      · exact absurd h (by simp)
    | bool b =>
      simp only [pyFilterF, pyFilterStep] at h
      split at h
      · simp at h; exact ⟨[], h.symm⟩
      · exact absurd h (by simp)
    | int i =>
      simp only [pyFilterF, pyFilterStep] at h
      split at h
      · simp at h; exact ⟨[], h.symm⟩
      · exact absurd h (by simp)

/-- `entryVal` is idempotent whenever the recursive projection is. -/
theorem entryVal_idem {f : PyVal → List String → List String → Option PyVal}
    (hf : ∀ d df' af' r, f d df' af' = some r → f r df' af' = some r)
    (hshape : ∀ d df' af' r, f d df' af' = some r → ∃ out, r = pdict out) :
    ∀ k t v w, entryVal f k t v = some w → entryVal f k t w = some w := by
  intro k t v w h
  by_cases ht : t = []
  · simp only [entryVal, if_pos ht] at h ⊢
  · cases v with
    | list xs =>
      simp only [entryVal, if_neg ht] at h
      cases hys : optMapM (fun x => f x (nestedDefaults k) t) xs.toList with
      | none => rw [hys] at h; simp at h
      | some ys =>
        rw [hys] at h
        simp at h
        subst h
        have hid : optMapM (fun x => f x (nestedDefaults k) t) ys = some ys := by
          apply optMapM_congr_id
          intro y hy
          obtain ⟨x, _, hfx⟩ := optMapM_from_mem hys y hy
          exact hf x _ _ y hfx
        simp [entryVal, if_neg ht, plist, hid]
    | none =>
      simp only [entryVal, if_neg ht] at h
      obtain ⟨out, hout⟩ := hshape _ _ _ _ h
      subst hout
      simpa [entryVal, if_neg ht, pdict] using hf _ _ _ _ h
    | bool b =>
      simp only [entryVal, if_neg ht] at h
      obtain ⟨out, hout⟩ := hshape _ _ _ _ h
      subst hout
      simpa [entryVal, if_neg ht, pdict] using hf _ _ _ _ h
    | int i =>
      simp only [entryVal, if_neg ht] at h
      obtain ⟨out, hout⟩ := hshape _ _ _ _ h
      subst hout
      simpa [entryVal, if_neg ht, pdict] using hf _ _ _ _ h
    | str s =>
      simp only [entryVal, if_neg ht] at h
      obtain ⟨out, hout⟩ := hshape _ _ _ _ h
      subst hout
      simpa [entryVal, if_neg ht, pdict] using hf _ _ _ _ h
    | tup xs =>
      simp only [entryVal, if_neg ht] at h
      obtain ⟨out, hout⟩ := hshape _ _ _ _ h
      subst hout
      simpa [entryVal, if_neg ht, pdict] using hf _ _ _ _ h
    | dict dd =>
      simp only [entryVal, if_neg ht] at h
      obtain ⟨out, hout⟩ := hshape _ _ _ _ h
      subst hout
      simpa [entryVal, if_neg ht, pdict] using hf _ _ _ _ h

/-- Idempotence of the fuelled projector at every fuel level. -/
theorem pyFilterF_idem :
    ∀ (n : Nat) {d : PyVal} {df af : List String} {r : PyVal},
      pyFilterF n d df af = some r → pyFilterF n r df af = some r := by
  intro n
  induction n with
  | zero => intro d df af r h; exact absurd h (by simp [pyFilterF])
  | succ n ih =>
    intro d df af r h
    have hval := entryVal_idem (f := pyFilterF n)
      (fun d' df' af' r' h' => ih h') (fun d' df' af' r' h' => pyFilterF_shape h')
    cases d with
    | dict dd =>
      simp only [pyFilterF, pyFilterStep] at h
      cases he : entriesGo (pyFilterF n) dd.toPairs (fpartsFor df af) with
      | none => rw [he] at h; simp at h
      | some out =>
        rw [he] at h
        simp at h
        subst h
        have hself := entriesGo_idem (fparts_keys_nodup df af) hval he out
          (fun _ _ => rfl)
        simp only [pyFilterF, pyFilterStep, pdict]
        rw [toPairs_ofPairs, hself]
        rfl
    | str s =>
      simp only [pyFilterF, pyFilterStep] at h
      split at h
      · exact absurd h (by simp)
      · simp at h
        subst h
        simp only [pyFilterF, pyFilterStep, pdict]
        rw [toPairs_ofPairs, entriesGo_nil_left]
        rfl
    | list xs =>
      simp only [pyFilterF, pyFilterStep] at h
      split at h
      · exact absurd h (by simp)
      · simp at h
        subst h
        simp only [pyFilterF, pyFilterStep, pdict]
        rw [toPairs_ofPairs, entriesGo_nil_left]
        rfl
    | tup xs =>
      simp only [pyFilterF, pyFilterStep] at h
      split at h
      · exact absurd h (by simp)
      · simp at h
        subst h
        simp only [pyFilterF, pyFilterStep, pdict]
        rw [toPairs_ofPairs, entriesGo_nil_left]
        rfl
    | none =>
      simp only [pyFilterF, pyFilterStep] at h
      split at h
      · simp at h
        subst h
        simp only [pyFilterF, pyFilterStep, pdict]
        rw [toPairs_ofPairs, entriesGo_nil_left]
        rfl
      · exact absurd h (by simp)
    | bool b =>
      simp only [pyFilterF, pyFilterStep] at h
      split at h
      · simp at h
        subst h
        simp only [pyFilterF, pyFilterStep, pdict]
        rw [toPairs_ofPairs, entriesGo_nil_left]
        rfl
      · exact absurd h (by simp)
    | int i =>
      simp only [pyFilterF, pyFilterStep] at h
      split at h
      · simp at h
        subst h
        simp only [pyFilterF, pyFilterStep, pdict]
        rw [toPairs_ofPairs, entriesGo_nil_left]
        rfl
      · exact absurd h (by simp)

theorem headDot_eq_self {s : List Char} (h : '.' ∉ s) : headDot s = s := by
  induction s with
  | nil => rfl
  | cons c rest ih =>
    simp at h
    unfold headDot
    rw [if_neg (fun hc => h.1 hc.symm), ih h.2]

theorem headOf_eq_self {f : String} (h : '.' ∉ f.data) : headOf f = f := by
  unfold headOf
  rw [headDot_eq_self h]

theorem tailAfterDot_eq_none {s : List Char} (h : '.' ∉ s) : tailAfterDot s = Option.none := by
  induction s with
  | nil => rfl
  | cons c rest ih =>
    simp at h
    unfold tailAfterDot
    rw [if_neg (fun hc => h.1 hc.symm), ih h.2]

theorem tailOf_eq_none {f : String} (h : '.' ∉ f.data) : tailOf f = Option.none := by
  unfold tailOf
  rw [tailAfterDot_eq_none h]
  rfl

/-- With an empty field selection `field_parts` is exactly the (deduplicated)
default fields, each with no nested suffixes. -/
theorem fpartsFor_nil_af (df : List String) (hdf : ∀ f ∈ df, '.' ∉ f.data) :
    fpartsFor df [] = df.dedup.map (fun k => (k, ([] : List String))) := by
  have hinc : includeFields df [] = df.dedup := by
    simp [includeFields]
  have hall : allFields df [] = df.dedup := by
    simp [allFields, hinc, List.dedup_idem]
  have hhead : ∀ f ∈ df.dedup, headOf f = f := fun f hf =>
    headOf_eq_self (hdf f (List.dedup_subset df hf))
  have htail : ∀ f ∈ df.dedup, tailOf f = Option.none := fun f hf =>
    tailOf_eq_none (hdf f (List.dedup_subset df hf))
  unfold fpartsFor
  rw [hall, List.map_congr_left hhead]
  have hid : List.map (fun a => a) df.dedup = df.dedup := List.map_id' df.dedup
  rw [hid, List.dedup_idem]
  apply List.map_congr_left
  intro k _
  congr 1
  rw [List.filterMap_eq_nil_iff]
  intro f hf
  by_cases hfk : headOf f = k
  · rw [if_pos hfk]
    exact htail f hf
  · rw [if_neg hfk]

/-- **C6.** The field projector is idempotent: re-projecting its own output
with the same default and requested field lists reproduces the output. -/
theorem claim_C6_projection_idempotent (d : PyVal) (df af : List String) (r : PyVal)
    (h : filter_nested_fields d df af = some r) :
    filter_nested_fields r df af = some r :=
  pyFilterF_idem (filterFuel df af) h

/-- Witness for C6 at a hydrated conversation document and the selection
`blocks.responses`. -/
theorem claim_C6_witness :
    filter_nested_fields
      (pdict [("id", PyVal.str "c"), ("zzz", PyVal.int 7),
        ("blocks", plist [pdict [("id", PyVal.str "b"),
          ("responses", plist [pdict [("id", PyVal.str "r"), ("x", PyVal.int 5)]])]])])
      default_conversation_fields ["blocks.responses"]
      = some (pdict [("id", PyVal.str "c"),
          ("blocks", plist [pdict [("id", PyVal.str "b"),
            ("responses", plist [pdict [("id", PyVal.str "r"), ("x", PyVal.int 5)]])]])]) ∧
    filter_nested_fields
      (pdict [("id", PyVal.str "c"),
        ("blocks", plist [pdict [("id", PyVal.str "b"),
          ("responses", plist [pdict [("id", PyVal.str "r"), ("x", PyVal.int 5)]])]])])
      default_conversation_fields ["blocks.responses"]
      = some (pdict [("id", PyVal.str "c"),
          ("blocks", plist [pdict [("id", PyVal.str "b"),
            ("responses", plist [pdict [("id", PyVal.str "r"), ("x", PyVal.int 5)]])]])]) :=
  ⟨by decide, claim_C6_projection_idempotent
    (pdict [("id", PyVal.str "c"), ("zzz", PyVal.int 7),
      ("blocks", plist [pdict [("id", PyVal.str "b"),
        ("responses", plist [pdict [("id", PyVal.str "r"), ("x", PyVal.int 5)]])]])])
    default_conversation_fields ["blocks.responses"] _ (by decide)⟩

/-- **C7.** Projecting a document with an empty field selection keeps exactly
the default fields that are present on the document, each bound to its
source value verbatim. -/
theorem claim_C7_default_projection (l : List (String × PyVal)) (df : List String)
    (hdf : ∀ f ∈ df, '.' ∉ f.data) :
    ∃ out, filter_nested_fields (pdict l) df [] = some (pdict out) ∧
      ∀ k, dlookup k out = if k ∈ df then dlookup k l else Option.none := by
  have hfp := fpartsFor_nil_af df hdf
  have hkeys : (fpartsFor df []).map Prod.fst = df.dedup := by
    rw [hfp, List.map_map]
    exact List.map_id _
  unfold filter_nested_fields
  have hfuel : ∃ n, filterFuel df [] = n + 1 := ⟨_, rfl⟩
  obtain ⟨n, hn⟩ := hfuel
  rw [hn]
  simp only [pyFilterF, pyFilterStep, pdict]
  rw [toPairs_ofPairs]
  have hsome : (entriesGo (pyFilterF n) l (fpartsFor df [])).isSome = true := by
    apply entriesGo_isSome
    intro kt hm v hv
    rw [hfp] at hm
    obtain ⟨k, _, hk⟩ := List.mem_map.mp hm
    rw [← hk]
    simp [entryVal]
  rw [Option.isSome_iff_exists] at hsome
  obtain ⟨out, hout⟩ := hsome
  refine ⟨out, by rw [hout]; rfl, ?_⟩
  intro k
  by_cases hk : k ∈ df
  · rw [if_pos hk]
    have hkfp : (k, ([] : List String)) ∈ fpartsFor df [] := by
      rw [hfp]
      exact List.mem_map.mpr ⟨k, List.mem_dedup.mpr hk, rfl⟩
    have hchar := entriesGo_lookup (fparts_keys_nodup df []) hout hkfp
    cases hv : dlookup k l with
    | none => exact hchar.1 hv
    | some v =>
      obtain ⟨w, hw, hlook⟩ := hchar.2 v hv
      simp [entryVal] at hw
      rw [hlook, hw]
  · rw [if_neg hk]
    apply entriesGo_lookup_not_mem hout
    rw [hkeys]
    exact fun hmem => hk (List.mem_dedup.mp hmem)

/-- Witness for C7 at a conversation document carrying an extra non-default
key, projected with the conversation defaults. -/
theorem claim_C7_witness :
    (∀ f ∈ default_conversation_fields, '.' ∉ f.data) ∧
    (∃ out, filter_nested_fields
        (pdict [("id", PyVal.str "c"), ("status", PyVal.str "OPEN"), ("zzz", PyVal.int 9)])
        default_conversation_fields [] = some (pdict out) ∧
      ∀ k, dlookup k out =
        if k ∈ default_conversation_fields then
          dlookup k [("id", PyVal.str "c"), ("status", PyVal.str "OPEN"), ("zzz", PyVal.int 9)]
        else Option.none) :=
  ⟨by decide, claim_C7_default_projection _ _ (by decide)⟩

/-! ## Storage, errors, S3 keys and the TTL cache -/

/-- An exception as observed by the service: `status` is the
`status_code` passed to `HTTPException` (`.int` for numeric codes, `.str`
for the vendor code strings `S3Utils` passes through from boto,
`.none` for raw non-HTTP exceptions such as `TypeError`); `detail` is the
message. -/
structure HErr where
  status : PyVal
  detail : String
  deriving DecidableEq

/-- Bucket contents: newest write first; `put` prepends, `get` takes the
first match. -/
abbrev Store := List (String × PyVal)

/-- The boto `NoSuchKey` client error for a missing key, re-raised by
`S3Utils.get_json_from_s3` as `HTTPException(status_code='NoSuchKey', ...)`
(s3_utils.py lines 11-22 pass `e.response['Error']['Code']` through as the
status). -/
def noSuchKeyErr : HErr := ⟨.str "NoSuchKey", "The specified key does not exist."⟩

/-- A raw `TypeError`/`AttributeError`-style exception (not an
`HTTPException`); only its presence matters to the claims below. -/
def typeErr : HErr := ⟨.none, "TypeError"⟩

/-- `S3Utils.get_json_from_s3`. -/
def s3_get (store : Store) (k : String) : Except HErr PyVal :=
  match dlookup k store with
  | some v => .ok v
  | Option.none => .error noSuchKeyErr

/-- `S3Utils.put_json_to_s3`. -/
def s3_put (store : Store) (k : String) (v : PyVal) : Store := (k, v) :: store

/-- Environment-supplied directory names (main.py lines 15-19), fixed to
representative constants; no claim depends on their values. -/
def bucket_base_folder : String := "base"

def conversations_dir_name : String := "conversations"

def blocks_dir_name : String := "blocks-dir"

def responses_dir_name : String := "responses-dir"

/-- `get_s3_key` (main.py lines 45-50): the `response_id` branch is checked
first, then `block_id`; `None` arguments would be interpolated as the
string `"None"` by the f-string. -/
def get_s3_key (cid : String) (bid rid : Option String) : String :=
  match rid with
  | some r =>
    bucket_base_folder ++ "/" ++ conversations_dir_name ++ "/" ++ cid ++ "/" ++
      blocks_dir_name ++ "/" ++ bid.getD "None" ++ "/" ++ responses_dir_name ++ "/" ++
      r ++ ".json"
  | Option.none =>
    match bid with
    | some b =>
      bucket_base_folder ++ "/" ++ conversations_dir_name ++ "/" ++ cid ++ "/" ++
        blocks_dir_name ++ "/" ++ b ++ ".json"
    | Option.none =>
      bucket_base_folder ++ "/" ++ conversations_dir_name ++ "/" ++ cid ++ ".json"

/-- A cache key as produced by `hash_key` (main.py lines 95-96): the
positional-argument tuple paired with the sorted keyword-argument items.
Note that it contains no operation name. -/
abbrev CKey := List PyVal × List (String × PyVal)

/-- `sorted(kwargs.items())`: keyword items ordered by key (keys are
unique in Python kwargs, so comparing keys suffices). -/
def sortKwargs (kw : List (String × PyVal)) : List (String × PyVal) :=
  List.insertionSort (fun a b => a.1 ≤ b.1) kw

/-- `hash_key(*args, **kwargs) = (tuple(args), tuple(sorted(kwargs.items())))`
(main.py lines 95-96). -/
def hash_key (args : List PyVal) (kwargs : List (String × PyVal)) : CKey :=
  (args, sortKwargs kwargs)

/-- The single module-level `TTLCache` shared by all three cached fetch
operations (main.py line 43); an entry being present models it being
unexpired. -/
abbrev Cache := List (CKey × PyVal)

def clookup (k : CKey) : Cache → Option PyVal
  | [] => Option.none
  | (k', v) :: rest => if k' = k then some v else clookup k rest

/-- The key under which `@cached(cache, key=hash_key)` stores a
`fetch_blocks(conversation_id, block_ids, fields)` result. -/
def fetch_blocks_cache_key (cid bids fields : PyVal) : CKey :=
  hash_key [cid, bids, fields] []

/-- The key under which `@cached(cache, key=hash_key)` stores a
`fetch_block(conversation_id, block_id, fields)` result. -/
def fetch_block_cache_key (cid bid fields : PyVal) : CKey :=
  hash_key [cid, bid, fields] []

/-- The key under which `@cached(cache, key=hash_key)` stores a
`fetch_responses(conversation_id, block_id, response_ids)` result. -/
def fetch_responses_cache_key (cid bid rids : PyVal) : CKey :=
  hash_key [cid, bid, rids] []

/-- Python `str()` as used in f-string key interpolation.  Container reprs
are abbreviated: the service only interpolates string ids on its reachable
paths. -/
def pyStr : PyVal → String
  | .str s => s
  | .int n => toString n
  | .bool true => "True"
  | .bool false => "False"
  | .none => "None"
  | .list _ => "<list>"
  | .tup _ => "<tuple>"
  | .dict _ => "<dict>"

/-- Python `tuple(x)` over a JSON value: lists/tuples yield their elements,
strings their characters, dicts their keys; other values raise
`TypeError`. -/
def tupleOf : PyVal → Except HErr (List PyVal)
  | .list l => .ok l.toList
  | .tup l => .ok l.toList
  | .str s => .ok (s.data.map (fun c => PyVal.str (String.mk [c])))
  | .dict d => .ok (d.toPairs.map (fun kv => PyVal.str kv.1))
  | _ => .error typeErr

/-- Python dict assignment `d[k] = v`: replaces in place if the key exists
(keeping its position), else appends at the end. -/
def setKeyL (l : List (String × PyVal)) (k : String) (v : PyVal) : List (String × PyVal) :=
  if (dlookup k l).isSome then l.map (fun kv => if kv.1 = k then (k, v) else kv)
  else l ++ [(k, v)]

/-! ## Fetch operations (main.py lines 98-120) -/

/-- The hydration guard of `read_conversation` (main.py line 167):
`fields and ("blocks" in fields or any(f.startswith("blocks.") for f in fields.split(',')))`.
`fields` is the optional query parameter; `None` and `""` are falsy, and
`"blocks" in fields` is Python substring containment. -/
def hydrateBlocksCond : Option String → Bool
  | Option.none => false
  | some f =>
    (f ≠ "") && (strContains f "blocks"
      || (pySplitChar ',' f.data).any (fun t => "blocks.".data.isPrefixOf t))

/-- The responses guard of `fetch_block` (main.py line 109):
`fields and ("blocks.responses" in fields or any(f.startswith("blocks.responses.") for f in fields.split(',')))`,
with `fields: str = ''`. -/
def fetchBlockRespCond (f : String) : Bool :=
  (f ≠ "") && (strContains f "blocks.responses"
    || (pySplitChar ',' f.data).any (fun t => "blocks.responses.".data.isPrefixOf t))

/-- `Except`-valued elementwise traversal, failing on the first failing
element (the sequential loops of the fetch operations). -/
def exMapM (f : α → Except HErr β) : List α → Except HErr (List β)
  | [] => .ok []
  | x :: xs =>
    match f x with
    | .error e => .error e
    | .ok y => (exMapM f xs).map (fun ys => y :: ys)

/-- `fetch_responses` without the cache decorator (the producer run on a
cache miss): one sequential S3 get per response id, in order. -/
def fetch_responses_p (store : Store) (cid : String) (bid : PyVal) (rids : List PyVal) :
    Except HErr (List PyVal) :=
  exMapM (fun rid => s3_get store (get_s3_key cid (some (pyStr bid)) (some (pyStr rid)))) rids

/-- `fetch_block` without the cache decorator: S3 get of the block, then,
iff the field-selection condition holds, fetch and attach the responses
under the transient `responses` key. -/
def fetch_block_p (store : Store) (cid : String) (bid : PyVal) (fields : String) :
    Except HErr PyVal :=
  match s3_get store (get_s3_key cid (some (pyStr bid)) Option.none) with
  | .error e => .error e
  | .ok b =>
    if fetchBlockRespCond fields then
      match b with
      | .dict bl =>
        match tupleOf ((dlookup "responseIds" bl.toPairs).getD (plist [])) with
        | .error e => .error e
        | .ok rids =>
          (fetch_responses_p store cid bid rids).map
            (fun rs => pdict (setKeyL bl.toPairs "responses" (plist rs)))
      | _ => .error typeErr
    else .ok b

/-- `fetch_blocks` without the cache decorator: one `fetch_block` per id,
in the given order. -/
def fetch_blocks_p (store : Store) (cid : String) (bids : List PyVal) (fields : String) :
    Except HErr (List PyVal) :=
  exMapM (fun bid => fetch_block_p store cid bid fields) bids

/-- Cached `fetch_responses` (main.py lines 113-120): look up the shared
cache under its `hash_key`, otherwise run the producer and populate. -/
def fetch_responses_c (store : Store) (cache : Cache) (cid : String) (bid : PyVal)
    (rids : List PyVal) : Except HErr PyVal × Cache :=
  match clookup (fetch_responses_cache_key (.str cid) bid (ptup rids)) cache with
  | some v => (.ok v, cache)
  | Option.none =>
    match fetch_responses_p store cid bid rids with
    | .error e => (.error e, cache)
    | .ok rs =>
      (.ok (plist rs), (fetch_responses_cache_key (.str cid) bid (ptup rids), plist rs) :: cache)

/-- Cached `fetch_block` (main.py lines 105-111). -/
def fetch_block_c (store : Store) (cache : Cache) (cid : String) (bid : PyVal)
    (fields : String) : Except HErr PyVal × Cache :=
  match clookup (fetch_block_cache_key (.str cid) bid (.str fields)) cache with
  | some v => (.ok v, cache)
  | Option.none =>
    match s3_get store (get_s3_key cid (some (pyStr bid)) Option.none) with
    | .error e => (.error e, cache)
    | .ok b =>
      if fetchBlockRespCond fields then
        match b with
        | .dict bl =>
          match tupleOf ((dlookup "responseIds" bl.toPairs).getD (plist [])) with
          | .error e => (.error e, cache)
          | .ok rids =>
            match fetch_responses_c store cache cid bid rids with
            | (.error e, cache') => (.error e, cache')
            | (.ok v, cache') =>
              (.ok (pdict (setKeyL bl.toPairs "responses" v)),
                (fetch_block_cache_key (.str cid) bid (.str fields),
                  pdict (setKeyL bl.toPairs "responses" v)) :: cache')
        | _ => (.error typeErr, cache)
      else (.ok b, (fetch_block_cache_key (.str cid) bid (.str fields), b) :: cache)

/-- The loop body of `fetch_blocks` (main.py lines 99-103), threading the
shared cache through the sequential `fetch_block` calls. -/
def fetch_blocks_go (store : Store) (cid : String) (fields : String) :
    List PyVal → Cache → Except HErr (List PyVal) × Cache
  | [], cache => (.ok [], cache)
  | bid :: rest, cache =>
    match fetch_block_c store cache cid bid fields with
    | (.error e, cache') => (.error e, cache')
    | (.ok b, cache') =>
      match fetch_blocks_go store cid fields rest cache' with
      | (.error e, cache'') => (.error e, cache'')
      | (.ok bs, cache'') => (.ok (b :: bs), cache'')

/-- Cached `fetch_blocks` (main.py lines 98-103). -/
def fetch_blocks_c (store : Store) (cache : Cache) (cid : String) (bids : List PyVal)
    (fields : String) : Except HErr PyVal × Cache :=
  match clookup (fetch_blocks_cache_key (.str cid) (ptup bids) (.str fields)) cache with
  | some v => (.ok v, cache)
  | Option.none =>
    match fetch_blocks_go store cid fields bids cache with
    | (.error e, cache') => (.error e, cache')
    | (.ok bs, cache') =>
      (.ok (plist bs),
        (fetch_blocks_cache_key (.str cid) (ptup bids) (.str fields), plist bs) :: cache')

/-! ## Read handlers (main.py lines 161-174 and 237-243) -/

/-- `fields.split(',') if fields else []` — the requested paths handed to
the projector. -/
def tokensOf : Option String → List String
  | Option.none => []
  | some f => if f = "" then [] else (pySplitChar ',' f.data).map String.mk

/-- `HTTPException(status_code=500, detail=str(e))` raised by
`read_conversation`'s catch-all `except` (main.py lines 172-174); `str(e)`
is abstracted to the inner detail. -/
def wrap500 (e : HErr) : HErr := ⟨.int 500, e.detail⟩

/-- `read_conversation` up to (and including) hydration, before the
projector runs: S3 get of the conversation, then, iff the hydration guard
holds, fetch all blocks of `conversation['blockIds']` through the cache and
attach them under the transient `blocks` key. -/
def read_conversation_hydrated (store : Store) (cache : Cache) (cid : String)
    (fields : Option String) : Except HErr PyVal × Cache :=
  match s3_get store (get_s3_key cid Option.none Option.none) with
  | .error e => (.error e, cache)
  | .ok conv =>
    if hydrateBlocksCond fields then
      match conv with
      | .dict cl =>
        match tupleOf ((dlookup "blockIds" cl.toPairs).getD (plist [])) with
        | .error e => (.error e, cache)
        | .ok bids =>
          match fetch_blocks_c store cache cid bids (fields.getD "") with
          | (.error e, cache') => (.error e, cache')
          | (.ok v, cache') => (.ok (pdict (setKeyL cl.toPairs "blocks" v)), cache')
      | _ => (.error typeErr, cache)
    else (.ok conv, cache)

/-- `read_conversation` (main.py lines 161-174): hydrate, project, and wrap
any exception in `HTTPException(500, str(e))`. -/
def read_conversation (store : Store) (cache : Cache) (cid : String)
    (fields : Option String) : Except HErr PyVal × Cache :=
  match read_conversation_hydrated store cache cid fields with
  | (.error e, cache') => (.error (wrap500 e), cache')
  | (.ok conv, cache') =>
    match filter_nested_fields conv default_conversation_fields (tokensOf fields) with
    | Option.none => (.error (wrap500 typeErr), cache')
    | some out => (.ok out, cache')

/-- `read_block` up to (and including) hydration (main.py lines 237-241):
the responses are always fetched and attached, with no condition on the
field selection (which the hydration step does not even receive). -/
def read_block_hydrated (store : Store) (cache : Cache) (cid bid : String) :
    Except HErr PyVal × Cache :=
  match s3_get store (get_s3_key cid (some bid) Option.none) with
  | .error e => (.error e, cache)
  | .ok b =>
    match b with
    | .dict bl =>
      match tupleOf ((dlookup "responseIds" bl.toPairs).getD (plist [])) with
      | .error e => (.error e, cache)
      | .ok rids =>
        match fetch_responses_c store cache cid (.str bid) rids with
        | (.error e, cache') => (.error e, cache')
        | (.ok v, cache') => (.ok (pdict (setKeyL bl.toPairs "responses" v)), cache')
    | _ => (.error typeErr, cache)

/-- `read_block` (main.py lines 237-243); this handler has no try/except,
so exceptions propagate unwrapped. -/
def read_block (store : Store) (cache : Cache) (cid bid : String) (fields : Option String) :
    Except HErr PyVal × Cache :=
  match read_block_hydrated store cache cid bid with
  | (.error e, cache') => (.error e, cache')
  | (.ok b, cache') =>
    match filter_nested_fields b default_block_fields (tokensOf fields) with
    | Option.none => (.error typeErr, cache')
    | some out => (.ok out, cache')

deriving instance DecidableEq for Except

/-! ## C3: the conversation hydration guard -/

/-- Modelled from the spec's words (§4.3 step 2), for comparison with the
code's guard: some comma-separated requested path is exactly `blocks` or
begins with `blocks.`. -/
def specBlocksTokenCond (f : String) : Bool :=
  (pySplitChar ',' f.data).any (fun t => t = "blocks".data || "blocks.".data.isPrefixOf t)

/-- The code's hydration guard is exactly "non-empty and contains `blocks`
as a substring": the `startswith("blocks.")` disjunct is subsumed by the
substring test. -/
theorem hydrate_cond_eq_substring (f : String) :
    hydrateBlocksCond (some f) = ((f ≠ "") && strContains f "blocks") := by
  simp only [hydrateBlocksCond]
  cases hc : strContains f "blocks"
  · have hany : (pySplitChar ',' f.data).any
        (fun t => "blocks.".data.isPrefixOf t) = false := by
      by_contra h
      rw [Bool.not_eq_false, List.any_eq_true] at h
      obtain ⟨t, ht, hpre⟩ := h
      have hinf : t <:+: f.data := pySplitChar_infix ht
      have hpre' : "blocks.".data <+: t := List.isPrefixOf_iff_prefix.mp hpre
      have hbp : "blocks".data <+: "blocks.".data := by decide
      have hbf : "blocks".data <:+: f.data := ((hbp.trans hpre').isInfix).trans hinf
      have hcc : strContains f "blocks" = true := strConAux_iff_infix.mpr hbf
      rw [hc] at hcc
      exact absurd hcc (by simp)
    rw [hany]
    simp
  · simp [hc]

/-- **C3 (counterexample).** The selection `"xblocksy"` has no
comma-separated token equal to `blocks` or starting with `blocks.`, yet
the conversation read fetches and attaches the referenced blocks, because
the guard uses Python substring containment. -/
theorem claim_C3_counterexample :
    specBlocksTokenCond "xblocksy" = false ∧
    (read_conversation_hydrated
      [(get_s3_key "c1" Option.none Option.none,
        pdict [("id", PyVal.str "c1"), ("blockIds", plist [PyVal.str "b1"])]),
       (get_s3_key "c1" (some "b1") Option.none, pdict [("id", PyVal.str "b1")])]
      [] "c1" (some "xblocksy")).1 =
      .ok (pdict [("id", PyVal.str "c1"), ("blockIds", plist [PyVal.str "b1"]),
        ("blocks", plist [pdict [("id", PyVal.str "b1")]])]) :=
  ⟨rfl, rfl⟩

/-- **C3 (amended).** For a conversation read with a field selection, the
blocks referenced by `blockIds` are fetched and attached if and only if
the selection string is non-empty and contains `"blocks"` as a substring
anywhere (not only as an exact comma-separated token): when the guard
fails the stored document passes through unmodified, and when it holds the
blocks fetched through the cache are attached under the `blocks` key. -/
theorem claim_C3_hydration_guard :
    (∀ f : String, hydrateBlocksCond (some f) = ((f ≠ "") && strContains f "blocks")) ∧
    hydrateBlocksCond Option.none = false ∧
    (∀ (store : Store) (cache : Cache) (cid : String) (fields : Option String) (conv : PyVal),
      s3_get store (get_s3_key cid Option.none Option.none) = .ok conv →
      hydrateBlocksCond fields = false →
      read_conversation_hydrated store cache cid fields = (.ok conv, cache)) ∧
    (∀ (store : Store) (cache : Cache) (cid : String) (f : String)
      (cl : List (String × PyVal)) (bids : List PyVal) (v : PyVal) (cache' : Cache),
      s3_get store (get_s3_key cid Option.none Option.none) = .ok (pdict cl) →
      tupleOf ((dlookup "blockIds" cl).getD (plist [])) = .ok bids →
      hydrateBlocksCond (some f) = true →
      fetch_blocks_c store cache cid bids f = (.ok v, cache') →
      read_conversation_hydrated store cache cid (some f) =
        (.ok (pdict (setKeyL cl "blocks" v)), cache')) := by
  refine ⟨hydrate_cond_eq_substring, rfl, ?_, ?_⟩
  · intro store cache cid fields conv hget hguard
    unfold read_conversation_hydrated
    rw [hget, hguard]
    rfl
  · intro store cache cid f cl bids v cache' hget hids hguard hfetch
    unfold read_conversation_hydrated
    rw [hget]
    simp only [hguard, if_true, pdict, toPairs_ofPairs, Option.getD_some, hids, hfetch]

/-- Witness for the amended C3, exercising both directions of the guard on
a concrete store. -/
theorem claim_C3_witness :
    hydrateBlocksCond (some "xblocksy") = true ∧
    hydrateBlocksCond (some "summaryText") = false ∧
    (read_conversation_hydrated
      [(get_s3_key "c1" Option.none Option.none,
        pdict [("id", PyVal.str "c1"), ("blockIds", plist [PyVal.str "b1"])]),
       (get_s3_key "c1" (some "b1") Option.none, pdict [("id", PyVal.str "b1")])]
      [] "c1" (some "summaryText")) =
      (.ok (pdict [("id", PyVal.str "c1"), ("blockIds", plist [PyVal.str "b1"])]), []) :=
  ⟨by decide, by decide,
    claim_C3_hydration_guard.2.2.1
      [(get_s3_key "c1" Option.none Option.none,
        pdict [("id", PyVal.str "c1"), ("blockIds", plist [PyVal.str "b1"])]),
       (get_s3_key "c1" (some "b1") Option.none, pdict [("id", PyVal.str "b1")])]
      [] "c1" (some "summaryText") _ (by decide) (by decide)⟩

/-! ## C4: asymmetric response hydration -/

/-- **C4.** The single-block read unconditionally fetches and attaches the
block's responses for every block and every field selection — its
hydration step does not even receive the selection — whereas the batch
path's `fetch_block` attaches responses if and only if the field-selection
string contains `"blocks.responses"` or has a comma-separated path
starting with `"blocks.responses."` (and otherwise returns the stored
document unmodified). -/
theorem claim_C4_response_hydration :
    (∀ (store : Store) (cache : Cache) (cid bid : String) (bl : List (String × PyVal))
      (rids : List PyVal) (v : PyVal) (cache' : Cache),
      s3_get store (get_s3_key cid (some bid) Option.none) = .ok (pdict bl) →
      tupleOf ((dlookup "responseIds" bl).getD (plist [])) = .ok rids →
      fetch_responses_c store cache cid (.str bid) rids = (.ok v, cache') →
      read_block_hydrated store cache cid bid =
        (.ok (pdict (setKeyL bl "responses" v)), cache')) ∧
    (∀ f : String, fetchBlockRespCond f =
      (strContains f "blocks.responses"
        || (pySplitChar ',' f.data).any (fun t => "blocks.responses.".data.isPrefixOf t))) ∧
    (∀ (store : Store) (cid : String) (bid : PyVal) (fields : String) (b : PyVal),
      s3_get store (get_s3_key cid (some (pyStr bid)) Option.none) = .ok b →
      fetchBlockRespCond fields = false →
      fetch_block_p store cid bid fields = .ok b) ∧
    (∀ (store : Store) (cid : String) (bid : PyVal) (fields : String)
      (bl : List (String × PyVal)) (rids rs : List PyVal),
      s3_get store (get_s3_key cid (some (pyStr bid)) Option.none) = .ok (pdict bl) →
      fetchBlockRespCond fields = true →
      tupleOf ((dlookup "responseIds" bl).getD (plist [])) = .ok rids →
      fetch_responses_p store cid bid rids = .ok rs →
      fetch_block_p store cid bid fields =
        .ok (pdict (setKeyL bl "responses" (plist rs)))) := by
  refine ⟨?_, ?_, ?_, ?_⟩
  · intro store cache cid bid bl rids v cache' hget hids hfetch
    unfold read_block_hydrated
    rw [hget]
    simp only [pdict, toPairs_ofPairs, hids, hfetch]
  · intro f
    by_cases hf : f = ""
    · subst hf; decide
    · simp [fetchBlockRespCond, hf]
  · intro store cid bid fields b hget hcond
    unfold fetch_block_p
    rw [hget, hcond]
    rfl
  · intro store cid bid fields bl rids rs hget hcond hids hresp
    unfold fetch_block_p
    rw [hget, hcond]
    simp only [if_true, pdict, toPairs_ofPairs, hids, hresp]
    rfl

/-- Witness for C4: a concrete block whose responses are attached by the
single-block read even with no field selection at play, and the two
directions of the batch-path condition. -/
theorem claim_C4_witness :
    fetchBlockRespCond "" = false ∧
    fetchBlockRespCond "blocks.responses" = true ∧
    read_block_hydrated
      [(get_s3_key "c1" (some "b1") Option.none,
        pdict [("id", PyVal.str "b1"), ("responseIds", plist [PyVal.str "r1"])]),
       (get_s3_key "c1" (some "b1") (some "r1"),
        pdict [("id", PyVal.str "r1"), ("source", PyVal.str "agent")])]
      [] "c1" "b1" =
      (.ok (pdict [("id", PyVal.str "b1"), ("responseIds", plist [PyVal.str "r1"]),
        ("responses", plist [pdict [("id", PyVal.str "r1"), ("source", PyVal.str "agent")]])]),
       [(fetch_responses_cache_key (PyVal.str "c1") (PyVal.str "b1") (ptup [PyVal.str "r1"]),
         plist [pdict [("id", PyVal.str "r1"), ("source", PyVal.str "agent")]])]) :=
  ⟨by decide, by decide,
    claim_C4_response_hydration.1
      [(get_s3_key "c1" (some "b1") Option.none,
        pdict [("id", PyVal.str "b1"), ("responseIds", plist [PyVal.str "r1"])]),
       (get_s3_key "c1" (some "b1") (some "r1"),
        pdict [("id", PyVal.str "r1"), ("source", PyVal.str "agent")])]
      [] "c1" "b1"
      [("id", PyVal.str "b1"), ("responseIds", plist [PyVal.str "r1"])]
      [PyVal.str "r1"]
      (plist [pdict [("id", PyVal.str "r1"), ("source", PyVal.str "agent")]])
      [(fetch_responses_cache_key (PyVal.str "c1") (PyVal.str "b1") (ptup [PyVal.str "r1"]),
        plist [pdict [("id", PyVal.str "r1"), ("source", PyVal.str "agent")]])]
      (by decide) (by decide) (by decide)⟩

/-! ## C2: the cache key -/

/-- Modelled from the spec's words (§4.2): "the cache key is the exact
tuple of (operationName, positional arguments, sorted keyword arguments)".
Stated only for comparison with the code's `hash_key`, which has no
operation-name component. -/
def specCacheKey (opName : String) (args : List PyVal) (kwargs : List (String × PyVal)) :
    String × List PyVal × List (String × PyVal) :=
  (opName, args, sortKwargs kwargs)

/-- **C2 (counterexample).** All three cached operations share one
`TTLCache` and one key function, and `hash_key` ignores which operation is
being called: two different operations handed the same raw argument tuple
produce the same cache key (hence address the same cache entry), where the
spec's operation-name-tagged key would keep them distinct. -/
theorem claim_C2_counterexample :
    fetch_block_cache_key (PyVal.str "c") (PyVal.str "b") (PyVal.str "") =
      fetch_responses_cache_key (PyVal.str "c") (PyVal.str "b") (PyVal.str "") ∧
    specCacheKey "fetch_block" [PyVal.str "c", PyVal.str "b", PyVal.str ""] [] ≠
      specCacheKey "fetch_responses" [PyVal.str "c", PyVal.str "b", PyVal.str ""] [] :=
  ⟨rfl, by decide⟩

/-- **C2 (amended).** The cache key is exactly
`(tuple(args), tuple(sorted(kwargs.items())))` — with no operation name —
so two cached calls share an entry of the single shared cache iff their
positional arguments match by value and their keyword items sort equally;
in particular an id tuple in a different order is a different key (a cache
miss), and a `fetch_blocks` key determines its exact argument values. -/
theorem claim_C2_cache_key :
    (∀ (args : List PyVal) (kwargs : List (String × PyVal))
      (args' : List PyVal) (kwargs' : List (String × PyVal)),
      hash_key args kwargs = hash_key args' kwargs' ↔
        (args = args' ∧ sortKwargs kwargs = sortKwargs kwargs')) ∧
    (∀ (cid fields a b : PyVal), a ≠ b →
      fetch_blocks_cache_key cid (ptup [a, b]) fields ≠
        fetch_blocks_cache_key cid (ptup [b, a]) fields) ∧
    (∀ cid bids fields cid' bids' fields' : PyVal,
      fetch_blocks_cache_key cid bids fields = fetch_blocks_cache_key cid' bids' fields' ↔
        (cid = cid' ∧ bids = bids' ∧ fields = fields')) := by
  refine ⟨?_, ?_, ?_⟩
  · intro args kwargs args' kwargs'
    simp [hash_key, Prod.ext_iff]
  · intro cid fields a b hab heq
    simp only [fetch_blocks_cache_key, hash_key, Prod.mk.injEq, List.cons.injEq,
      and_true, true_and] at heq
    have := ptup_inj.mp heq
    simp at this
    exact hab this.1
  · intro cid bids fields cid' bids' fields'
    simp only [fetch_blocks_cache_key, hash_key, Prod.mk.injEq, List.cons.injEq,
      and_true, true_and]

/-- Witness for C2 at two distinct block ids. -/
theorem claim_C2_witness :
    PyVal.str "b1" ≠ PyVal.str "b2" ∧
    fetch_blocks_cache_key (PyVal.str "c") (ptup [PyVal.str "b1", PyVal.str "b2"])
        (PyVal.str "f") ≠
      fetch_blocks_cache_key (PyVal.str "c") (ptup [PyVal.str "b2", PyVal.str "b1"])
        (PyVal.str "f") :=
  ⟨by decide, claim_C2_cache_key.2.1 (PyVal.str "c") (PyVal.str "f")
    (PyVal.str "b1") (PyVal.str "b2") (by decide)⟩

/-! ## Cache coherence: cached fetches against unexpired, up-to-date entries -/

@[simp] theorem clookup_nil (k : CKey) : clookup k [] = Option.none := rfl

theorem clookup_cons_eq {k : CKey} {v : PyVal} {c : Cache} :
    clookup k ((k, v) :: c) = some v := by simp [clookup]

theorem clookup_cons_ne {k k' : CKey} {v : PyVal} {c : Cache} (h : k' ≠ k) :
    clookup k ((k', v) :: c) = clookup k c := by simp [clookup, h]

/-- Whether a value is a Python tuple; JSON documents never contain
tuples. -/
def PyVal.isTup : PyVal → Bool
  | .tup _ => true
  | _ => false

/-- A cache is coherent with a store when every (unexpired) entry equals
what its producer would compute against the store right now.  The
`fetch_block` clause is restricted to non-tuple block ids — JSON documents
cannot contain tuples, so reachable `fetch_block` calls never receive
one — which keeps the three operations' key spaces disjoint.  The empty
cache is coherent and the cached fetchers preserve coherence. -/
def Coherent (store : Store) (cache : Cache) : Prop :=
  (∀ (cid : String) (bid : PyVal) (fields : String) (v : PyVal),
    bid.isTup = false →
    clookup (fetch_block_cache_key (.str cid) bid (.str fields)) cache = some v →
    fetch_block_p store cid bid fields = .ok v) ∧
  (∀ (cid : String) (bids : List PyVal) (fields : String) (v : PyVal),
    clookup (fetch_blocks_cache_key (.str cid) (ptup bids) (.str fields)) cache = some v →
    ∃ bs, v = plist bs ∧ fetch_blocks_p store cid bids fields = .ok bs) ∧
  (∀ (cid : String) (bid : PyVal) (rids : List PyVal) (v : PyVal),
    clookup (fetch_responses_cache_key (.str cid) bid (ptup rids)) cache = some v →
    ∃ rs, v = plist rs ∧ fetch_responses_p store cid bid rids = .ok rs)

theorem coherent_nil (store : Store) : Coherent store [] := by
  refine ⟨?_, ?_, ?_⟩
  · intro cid bid fields v _ h
    simp at h
  · intro cid bids fields v h
    simp at h
  · intro cid bid rids v h
    simp at h

/-- The `fetch_responses` key never collides with a `fetch_block` key: the
third argument is a tuple in one and a string in the other. -/
theorem fr_key_ne_fb_key {a b : PyVal} {rids : List PyVal} {a' b' : PyVal} {f : String} :
    fetch_responses_cache_key a b (ptup rids) ≠ fetch_block_cache_key a' b' (.str f) := by
  intro h
  simp [fetch_responses_cache_key, fetch_block_cache_key, hash_key, ptup] at h

/-- The `fetch_responses` key never collides with a `fetch_blocks` key. -/
theorem fr_key_ne_fbs_key {a b : PyVal} {rids : List PyVal} {a' b' : PyVal} {f : String} :
    fetch_responses_cache_key a b (ptup rids) ≠ fetch_blocks_cache_key a' b' (.str f) := by
  intro h
  simp [fetch_responses_cache_key, fetch_blocks_cache_key, hash_key, ptup] at h

/-- A `fetch_block` key with a non-tuple block id never collides with a
`fetch_blocks` key. -/
theorem fb_key_ne_fbs_key {a bid : PyVal} {f : String} {a' : PyVal} {bids : List PyVal}
    {f' : String} (hb : bid.isTup = false) :
    fetch_block_cache_key a bid (.str f) ≠ fetch_blocks_cache_key a' (ptup bids) (.str f') := by
  intro h
  simp only [fetch_block_cache_key, fetch_blocks_cache_key, hash_key, Prod.mk.injEq,
    List.cons.injEq, and_true, true_and] at h
  obtain ⟨-, hbid, -⟩ := h
  rw [hbid] at hb
  simp [ptup, PyVal.isTup] at hb

theorem fr_key_inj {a : String} {b : PyVal} {rids : List PyVal} {a' : String} {b' : PyVal}
    {rids' : List PyVal}
    (h : fetch_responses_cache_key (.str a) b (ptup rids) =
      fetch_responses_cache_key (.str a') b' (ptup rids')) :
    a = a' ∧ b = b' ∧ rids = rids' := by
  simp only [fetch_responses_cache_key, hash_key, Prod.mk.injEq, List.cons.injEq,
    and_true, true_and, PyVal.str.injEq, ptup, PyVal.tup.injEq] at h
  exact ⟨h.1, h.2.1, ofList_injective h.2.2⟩

theorem fb_key_inj {a : String} {b : PyVal} {f : String} {a' : String} {b' : PyVal}
    {f' : String}
    (h : fetch_block_cache_key (.str a) b (.str f) =
      fetch_block_cache_key (.str a') b' (.str f')) :
    a = a' ∧ b = b' ∧ f = f' := by
  simp only [fetch_block_cache_key, hash_key, Prod.mk.injEq, List.cons.injEq,
    and_true, true_and, PyVal.str.injEq] at h
  exact h

theorem fbs_key_inj {a : String} {bids : List PyVal} {f : String} {a' : String}
    {bids' : List PyVal} {f' : String}
    (h : fetch_blocks_cache_key (.str a) (ptup bids) (.str f) =
      fetch_blocks_cache_key (.str a') (ptup bids') (.str f')) :
    a = a' ∧ bids = bids' ∧ f = f' := by
  simp only [fetch_blocks_cache_key, hash_key, Prod.mk.injEq, List.cons.injEq,
    and_true, true_and, PyVal.str.injEq, ptup, PyVal.tup.injEq] at h
  exact ⟨h.1, ofList_injective h.2.1, h.2.2⟩

/-- Against a coherent cache, cached `fetch_responses` computes exactly the
producer's value and leaves the cache coherent. -/
theorem fetch_responses_c_spec {store : Store} {cache : Cache} (cid : String)
    (bid : PyVal) (rids : List PyVal) (hco : Coherent store cache) :
    ∃ cache', fetch_responses_c store cache cid bid rids =
      ((fetch_responses_p store cid bid rids).map plist, cache') ∧
      Coherent store cache' := by
  unfold fetch_responses_c
  cases hl : clookup (fetch_responses_cache_key (.str cid) bid (ptup rids)) cache with
  | some v =>
    obtain ⟨rs, hv, hp⟩ := hco.2.2 cid bid rids v hl
    refine ⟨cache, ?_, hco⟩
    rw [hp, hv]
    rfl
  | none =>
    cases hp : fetch_responses_p store cid bid rids with
    | error e => exact ⟨cache, rfl, hco⟩
    | ok rs =>
      obtain ⟨h1, h2, h3⟩ := hco
      refine ⟨_, rfl, ?_, ?_, ?_⟩
      · intro cid' bid' fields' v' htup hlk
        rw [clookup_cons_ne (fr_key_ne_fb_key)] at hlk
        exact h1 cid' bid' fields' v' htup hlk
      · intro cid' bids' fields' v' hlk
        rw [clookup_cons_ne (fr_key_ne_fbs_key)] at hlk
        exact h2 cid' bids' fields' v' hlk
      · intro cid' bid' rids' v' hlk
        by_cases hk : fetch_responses_cache_key (.str cid) bid (ptup rids) =
            fetch_responses_cache_key (.str cid') bid' (ptup rids')
        · rw [hk, clookup_cons_eq] at hlk
          injection hlk with hlk
          obtain ⟨hcid, hbid, hrids⟩ := fr_key_inj hk
          subst hcid; subst hbid; subst hrids
          exact ⟨rs, hlk.symm, hp⟩
        · rw [clookup_cons_ne hk] at hlk
          exact h3 cid' bid' rids' v' hlk

/-- Against a coherent cache, cached `fetch_block` computes exactly the
producer's value and leaves the cache coherent (for the non-tuple block
ids that are actually reachable). -/
theorem fetch_block_c_spec {store : Store} {cache : Cache} (cid : String)
    (bid : PyVal) (fields : String) (hco : Coherent store cache)
    (hbid : bid.isTup = false) :
    ∃ cache', fetch_block_c store cache cid bid fields =
      (fetch_block_p store cid bid fields, cache') ∧
      Coherent store cache' := by
  unfold fetch_block_c
  cases hl : clookup (fetch_block_cache_key (.str cid) bid (.str fields)) cache with
  | some v =>
    refine ⟨cache, ?_, hco⟩
    rw [hco.1 cid bid fields v hbid hl]
  | none =>
    cases hg : s3_get store (get_s3_key cid (some (pyStr bid)) Option.none) with
    | error e =>
      refine ⟨cache, ?_, hco⟩
      unfold fetch_block_p
      simp [hg]
    | ok b =>
      cases hcond : fetchBlockRespCond fields with
      | false =>
        have hpv : fetch_block_p store cid bid fields = .ok b := by
          unfold fetch_block_p
          simp [hg, hcond]
        obtain ⟨h1, h2, h3⟩ := hco
        refine ⟨_, by rw [hpv]; rfl, ?_, ?_, ?_⟩
        · intro cid' bid' fields' v' htup hlk
          by_cases hk : fetch_block_cache_key (.str cid) bid (.str fields) =
              fetch_block_cache_key (.str cid') bid' (.str fields')
          · rw [hk, clookup_cons_eq] at hlk
            injection hlk with hlk
            obtain ⟨hcid, hbid', hfields⟩ := fb_key_inj hk
            subst hcid; subst hbid'; subst hfields
            rw [hlk] at hpv
            exact hpv
          · rw [clookup_cons_ne hk] at hlk
            exact h1 cid' bid' fields' v' htup hlk
        · intro cid' bids' fields' v' hlk
          rw [clookup_cons_ne (fb_key_ne_fbs_key hbid)] at hlk
          exact h2 cid' bids' fields' v' hlk
        · intro cid' bid' rids' v' hlk
          rw [clookup_cons_ne (fun hk => fr_key_ne_fb_key hk.symm)] at hlk
          exact h3 cid' bid' rids' v' hlk
      | true =>
        cases b with
        | dict bl =>
          cases hrids : tupleOf ((dlookup "responseIds" bl.toPairs).getD (plist [])) with
          | error e =>
            refine ⟨cache, ?_, hco⟩
            unfold fetch_block_p
            simp [hg, hcond, hrids]
          | ok rids =>
            obtain ⟨cache₁, hrc, hco₁⟩ := fetch_responses_c_spec cid bid rids hco
            cases hrp : fetch_responses_p store cid bid rids with
            | error e =>
              refine ⟨cache₁, ?_, hco₁⟩
              rw [hrp] at hrc
              simp only [Except.map] at hrc
              unfold fetch_block_p
              simp [hg, hcond, hrids, hrc, hrp, Except.map]
            | ok rs =>
              rw [hrp] at hrc
              simp only [Except.map] at hrc
              have hpv : fetch_block_p store cid bid fields =
                  .ok (pdict (setKeyL bl.toPairs "responses" (plist rs))) := by
                unfold fetch_block_p
                simp [hg, hcond, hrids, hrp]
                rfl
              obtain ⟨h1, h2, h3⟩ := hco₁
              refine ⟨(fetch_block_cache_key (.str cid) bid (.str fields),
                pdict (setKeyL bl.toPairs "responses" (plist rs))) :: cache₁, ?_, ?_, ?_, ?_⟩
              · rw [hpv]
                simp [hrids, hrc]
              · intro cid' bid' fields' v' htup hlk
                by_cases hk : fetch_block_cache_key (.str cid) bid (.str fields) =
                    fetch_block_cache_key (.str cid') bid' (.str fields')
                · rw [hk, clookup_cons_eq] at hlk
                  injection hlk with hlk
                  obtain ⟨hcid, hbid', hfields⟩ := fb_key_inj hk
                  subst hcid; subst hbid'; subst hfields
                  rw [hlk] at hpv
                  exact hpv
                · rw [clookup_cons_ne hk] at hlk
                  exact h1 cid' bid' fields' v' htup hlk
              · intro cid' bids' fields' v' hlk
                rw [clookup_cons_ne (fb_key_ne_fbs_key hbid)] at hlk
                exact h2 cid' bids' fields' v' hlk
              · intro cid' bid' rids' v' hlk
                rw [clookup_cons_ne (fun hk => fr_key_ne_fb_key hk.symm)] at hlk
                exact h3 cid' bid' rids' v' hlk
        | none =>
          refine ⟨cache, ?_, hco⟩
          unfold fetch_block_p
          simp [hg, hcond]
        | bool b' =>
          refine ⟨cache, ?_, hco⟩
          unfold fetch_block_p
          simp [hg, hcond]
        | int i =>
          refine ⟨cache, ?_, hco⟩
          unfold fetch_block_p
          simp [hg, hcond]
        | str s =>
          refine ⟨cache, ?_, hco⟩
          unfold fetch_block_p
          simp [hg, hcond]
        | list l =>
          refine ⟨cache, ?_, hco⟩
          unfold fetch_block_p
          simp [hg, hcond]
        | tup l =>
          refine ⟨cache, ?_, hco⟩
          unfold fetch_block_p
          simp [hg, hcond]

/-- The `fetch_blocks` loop against a coherent cache computes exactly the
producer's list and leaves the cache coherent. -/
theorem fetch_blocks_go_spec {store : Store} (cid : String) (fields : String) :
    ∀ (bids : List PyVal) (cache : Cache), Coherent store cache →
      (∀ b ∈ bids, b.isTup = false) →
      ∃ cache', fetch_blocks_go store cid fields bids cache =
        (fetch_blocks_p store cid bids fields, cache') ∧ Coherent store cache' := by
  intro bids
  induction bids with
  | nil => intro cache hco _; exact ⟨cache, rfl, hco⟩
  | cons bid rest ih =>
    intro cache hco hb
    obtain ⟨cache₁, hbc, hco₁⟩ := fetch_block_c_spec cid bid fields hco (hb bid (by simp))
    cases hbp : fetch_block_p store cid bid fields with
    | error e =>
      rw [hbp] at hbc
      refine ⟨cache₁, ?_, hco₁⟩
      simp [fetch_blocks_go, hbc, fetch_blocks_p, exMapM, hbp]
    | ok b =>
      rw [hbp] at hbc
      obtain ⟨cache₂, hrest, hco₂⟩ := ih cache₁ hco₁ (fun x hx => hb x (by simp [hx]))
      refine ⟨cache₂, ?_, hco₂⟩
      cases hrp : fetch_blocks_p store cid rest fields with
      | error e =>
        rw [hrp] at hrest
        simp [fetch_blocks_go, hbc, hrest, fetch_blocks_p, exMapM, hbp, Except.map,
          show exMapM (fun b => fetch_block_p store cid b fields) rest = .error e from hrp]
      | ok bs =>
        rw [hrp] at hrest
        simp [fetch_blocks_go, hbc, hrest, fetch_blocks_p, exMapM, hbp, Except.map,
          show exMapM (fun b => fetch_block_p store cid b fields) rest = .ok bs from hrp]

/-- Against a coherent cache, cached `fetch_blocks` computes exactly the
producer's list and leaves the cache coherent. -/
theorem fetch_blocks_c_spec {store : Store} {cache : Cache} (cid : String)
    (bids : List PyVal) (fields : String) (hco : Coherent store cache)
    (hbids : ∀ b ∈ bids, b.isTup = false) :
    ∃ cache', fetch_blocks_c store cache cid bids fields =
      ((fetch_blocks_p store cid bids fields).map plist, cache') ∧
      Coherent store cache' := by
  unfold fetch_blocks_c
  cases hl : clookup (fetch_blocks_cache_key (.str cid) (ptup bids) (.str fields)) cache with
  | some v =>
    obtain ⟨bs, hv, hp⟩ := hco.2.1 cid bids fields v hl
    refine ⟨cache, ?_, hco⟩
    rw [hp, hv]
    rfl
  | none =>
    obtain ⟨cache₁, hgo, hco₁⟩ := fetch_blocks_go_spec cid fields bids cache hco hbids
    cases hp : fetch_blocks_p store cid bids fields with
    | error e =>
      rw [hp] at hgo
      refine ⟨cache₁, ?_, hco₁⟩
      simp [hgo, Except.map]
    | ok bs =>
      rw [hp] at hgo
      obtain ⟨h1, h2, h3⟩ := hco₁
      refine ⟨(fetch_blocks_cache_key (.str cid) (ptup bids) (.str fields), plist bs)
        :: cache₁, ?_, ?_, ?_, ?_⟩
      · simp [hgo, Except.map]
      · intro cid' bid' fields' v' htup hlk
        rw [clookup_cons_ne (fun hk => fb_key_ne_fbs_key htup hk.symm)] at hlk
        exact h1 cid' bid' fields' v' htup hlk
      · intro cid' bids' fields' v' hlk
        by_cases hk : fetch_blocks_cache_key (.str cid) (ptup bids) (.str fields) =
            fetch_blocks_cache_key (.str cid') (ptup bids') (.str fields')
        · rw [hk, clookup_cons_eq] at hlk
          injection hlk with hlk
          obtain ⟨hc, hb, hf⟩ := fbs_key_inj hk
          subst hc; subst hb; subst hf
          exact ⟨bs, hlk.symm, hp⟩
        · rw [clookup_cons_ne hk] at hlk
          exact h2 cid' bids' fields' v' hlk
      · intro cid' bid' rids' v' hlk
        rw [clookup_cons_ne (fun hk => fr_key_ne_fbs_key hk.symm)] at hlk
        exact h3 cid' bid' rids' v' hlk

/-! ## C5: not-found propagation -/

theorem exMapM_error_of_mem {f : α → Except HErr β} :
    ∀ {xs : List α}, (∃ x ∈ xs, ∃ e, f x = .error e) → ∃ e, exMapM f xs = .error e := by
  intro xs
  induction xs with
  | nil => intro h; simp at h
  | cons x rest ih =>
    intro h
    cases hx : f x with
    | error e => exact ⟨e, by simp [exMapM, hx]⟩
    | ok y =>
      obtain ⟨z, hz, e, hze⟩ := h
      rcases List.mem_cons.mp hz with heq | hz'
      · subst heq; rw [hx] at hze; exact absurd hze (by simp)
      · obtain ⟨e', he'⟩ := ih ⟨z, hz', e, hze⟩
        exact ⟨e', by simp [exMapM, hx, he', Except.map]⟩

/-- A block id whose document is absent makes `fetch_block` fail (with the
gateway's not-found error), whatever the field selection. -/
theorem fetch_block_p_error_of_missing {store : Store} {cid : String} {bid : PyVal}
    (fields : String)
    (h : dlookup (get_s3_key cid (some (pyStr bid)) Option.none) store = Option.none) :
    fetch_block_p store cid bid fields = .error noSuchKeyErr := by
  unfold fetch_block_p s3_get
  rw [h]

/-- A response id whose document is absent makes `fetch_block` fail
whenever the selection asks for responses. -/
theorem fetch_block_p_error_of_missing_resp {store : Store} {cid : String} {bid : PyVal}
    {fields : String} {bl : List (String × PyVal)} {rids : List PyVal}
    (hg : s3_get store (get_s3_key cid (some (pyStr bid)) Option.none) = .ok (pdict bl))
    (hcond : fetchBlockRespCond fields = true)
    (hrids : tupleOf ((dlookup "responseIds" bl).getD (plist [])) = .ok rids)
    (h : ∃ rid ∈ rids,
      dlookup (get_s3_key cid (some (pyStr bid)) (some (pyStr rid))) store = Option.none) :
    ∃ e, fetch_block_p store cid bid fields = .error e := by
  have hresp : ∃ e, fetch_responses_p store cid bid rids = .error e := by
    apply exMapM_error_of_mem
    obtain ⟨rid, hrid, hmiss⟩ := h
    exact ⟨rid, hrid, noSuchKeyErr, by simp [s3_get, hmiss]⟩
  obtain ⟨e, he⟩ := hresp
  refine ⟨e, ?_⟩
  unfold fetch_block_p
  simp [hg, hcond, pdict, toPairs_ofPairs, hrids, he, Except.map]

/-- A failing block fetch surfaces from `read_conversation` as the
catch-all's HTTP 500. -/
theorem read_conversation_500_of_fetch_error {store : Store} {cache : Cache}
    {cid f : String} {cl : List (String × PyVal)} {bids : List PyVal}
    (hco : Coherent store cache)
    (hconv : s3_get store (get_s3_key cid Option.none Option.none) = .ok (pdict cl))
    (hids : tupleOf ((dlookup "blockIds" cl).getD (plist [])) = .ok bids)
    (hguard : hydrateBlocksCond (some f) = true)
    (hnt : ∀ b ∈ bids, b.isTup = false)
    (herr : ∃ e, fetch_blocks_p store cid bids f = .error e) :
    ∃ d, (read_conversation store cache cid (some f)).1 = .error ⟨.int 500, d⟩ := by
  obtain ⟨e, he⟩ := herr
  obtain ⟨cache', hbc, -⟩ := fetch_blocks_c_spec cid bids f hco hnt
  rw [he] at hbc
  simp only [Except.map] at hbc
  refine ⟨e.detail, ?_⟩
  unfold read_conversation read_conversation_hydrated
  simp [hconv, hguard, pdict, toPairs_ofPairs, hids, hbc, wrap500]

/-- **C5 (counterexample).** A conversation whose single block document is
missing: with hydration requested, the read fails — but with the handler's
HTTP 500 (wrapping the not-found detail), not with the gateway's not-found
status, contradicting the claim's "fails with a not-found error". -/
theorem claim_C5_counterexample :
    (read_conversation
      [(get_s3_key "c1" Option.none Option.none,
        pdict [("id", PyVal.str "c1"), ("blockIds", plist [PyVal.str "b1"])])]
      [] "c1" (some "blocks")).1 =
      .error ⟨.int 500, "The specified key does not exist."⟩ ∧
    noSuchKeyErr.status ≠ PyVal.int 500 ∧ PyVal.int 404 ≠ PyVal.int 500 :=
  ⟨rfl, by decide, by decide⟩

/-- **C5 (amended).** For a conversation read whose field selection
triggers block hydration, against any cache coherent with the store (the
empty cache in particular): if some blockIds entry has no stored document
the whole read fails with the handler's HTTP 500 error (wrapping the
gateway's not-found failure) and no partially-hydrated tree is returned;
the same holds one level down for a missing response document when the
selection also hydrates responses. -/
theorem claim_C5_not_found_propagation :
    (∀ (store : Store) (cache : Cache) (cid f : String)
      (cl : List (String × PyVal)) (bids : List PyVal),
      Coherent store cache →
      s3_get store (get_s3_key cid Option.none Option.none) = .ok (pdict cl) →
      tupleOf ((dlookup "blockIds" cl).getD (plist [])) = .ok bids →
      hydrateBlocksCond (some f) = true →
      (∀ b ∈ bids, b.isTup = false) →
      (∃ bid ∈ bids,
        dlookup (get_s3_key cid (some (pyStr bid)) Option.none) store = Option.none) →
      ∃ d, (read_conversation store cache cid (some f)).1 = .error ⟨.int 500, d⟩) ∧
    (∀ (store : Store) (cache : Cache) (cid f : String)
      (cl : List (String × PyVal)) (bids : List PyVal) (bid : PyVal)
      (bl : List (String × PyVal)) (rids : List PyVal),
      Coherent store cache →
      s3_get store (get_s3_key cid Option.none Option.none) = .ok (pdict cl) →
      tupleOf ((dlookup "blockIds" cl).getD (plist [])) = .ok bids →
      hydrateBlocksCond (some f) = true →
      (∀ b ∈ bids, b.isTup = false) →
      bid ∈ bids →
      s3_get store (get_s3_key cid (some (pyStr bid)) Option.none) = .ok (pdict bl) →
      fetchBlockRespCond f = true →
      tupleOf ((dlookup "responseIds" bl).getD (plist [])) = .ok rids →
      (∃ rid ∈ rids,
        dlookup (get_s3_key cid (some (pyStr bid)) (some (pyStr rid))) store = Option.none) →
      ∃ d, (read_conversation store cache cid (some f)).1 = .error ⟨.int 500, d⟩) := by
  constructor
  · intro store cache cid f cl bids hco hconv hids hguard hnt hmiss
    apply read_conversation_500_of_fetch_error hco hconv hids hguard hnt
    obtain ⟨bid, hbid, hm⟩ := hmiss
    exact exMapM_error_of_mem
      ⟨bid, hbid, noSuchKeyErr, fetch_block_p_error_of_missing f hm⟩
  · intro store cache cid f cl bids bid bl rids hco hconv hids hguard hnt hbid hbl hcond
      hrids hmiss
    apply read_conversation_500_of_fetch_error hco hconv hids hguard hnt
    obtain ⟨e, he⟩ := fetch_block_p_error_of_missing_resp hbl hcond hrids hmiss
    exact exMapM_error_of_mem ⟨bid, hbid, e, he⟩

/-- Witness for the amended C5 at a concrete store with one missing block
document and the empty (trivially coherent) cache. -/
theorem claim_C5_witness :
    dlookup (get_s3_key "c1" (some "b1") Option.none)
      [(get_s3_key "c1" Option.none Option.none,
        pdict [("id", PyVal.str "c1"), ("blockIds", plist [PyVal.str "b1"])])] =
      Option.none ∧
    ∃ d, (read_conversation
      [(get_s3_key "c1" Option.none Option.none,
        pdict [("id", PyVal.str "c1"), ("blockIds", plist [PyVal.str "b1"])])]
      [] "c1" (some "blocks")).1 = .error ⟨.int 500, d⟩ :=
  ⟨by decide,
    claim_C5_not_found_propagation.1
      [(get_s3_key "c1" Option.none Option.none,
        pdict [("id", PyVal.str "c1"), ("blockIds", plist [PyVal.str "b1"])])]
      [] "c1" "blocks"
      [("id", PyVal.str "c1"), ("blockIds", plist [PyVal.str "b1"])]
      [PyVal.str "b1"]
      (coherent_nil _) (by decide) (by decide) (by decide) (by decide)
      ⟨PyVal.str "b1", by decide, by decide⟩⟩

/-! ## C8: order preservation through hydration and projection -/

theorem dlookup_append_of_none {k : String} {l₁ l₂ : List (String × PyVal)}
    (h : dlookup k l₁ = Option.none) : dlookup k (l₁ ++ l₂) = dlookup k l₂ := by
  induction l₁ with
  | nil => rfl
  | cons kv rest ih =>
    obtain ⟨k', v'⟩ := kv
    by_cases hk : k' = k
    · subst hk; rw [dlookup_cons_self] at h; exact absurd h (by simp)
    · rw [dlookup_cons_ne hk] at h
      rw [List.cons_append, dlookup_cons_ne hk]
      exact ih h

theorem dlookup_append_of_some {k : String} {l₁ l₂ : List (String × PyVal)} {v : PyVal}
    (h : dlookup k l₁ = some v) : dlookup k (l₁ ++ l₂) = some v := by
  induction l₁ with
  | nil => simp at h
  | cons kv rest ih =>
    obtain ⟨k', v'⟩ := kv
    by_cases hk : k' = k
    · subst hk
      rw [dlookup_cons_self] at h
      rw [List.cons_append, dlookup_cons_self]
      exact h
    · rw [dlookup_cons_ne hk] at h
      rw [List.cons_append, dlookup_cons_ne hk]
      exact ih h

theorem dlookup_replace_self {l : List (String × PyVal)} {k : String} {v : PyVal}
    (h : (dlookup k l).isSome = true) :
    dlookup k (l.map (fun kv => if kv.1 = k then (k, v) else kv)) = some v := by
  induction l with
  | nil => simp at h
  | cons kv rest ih =>
    obtain ⟨k', v'⟩ := kv
    simp only [List.map_cons]
    by_cases hk : k' = k
    · subst hk
      rw [if_pos rfl, dlookup_cons_self]
    · rw [dlookup_cons_ne hk] at h
      rw [if_neg hk, dlookup_cons_ne hk]
      exact ih h

theorem dlookup_replace_other {l : List (String × PyVal)} {k : String} {v : PyVal}
    {k' : String} (h : k' ≠ k) :
    dlookup k' (l.map (fun kv => if kv.1 = k then (k, v) else kv)) = dlookup k' l := by
  induction l with
  | nil => rfl
  | cons kv rest ih =>
    obtain ⟨k0, v0⟩ := kv
    simp only [List.map_cons]
    by_cases hk0 : k0 = k
    · subst hk0
      rw [if_pos rfl, dlookup_cons_ne (fun hh => h hh.symm),
        dlookup_cons_ne (fun hh => h hh.symm)]
      exact ih
    · rw [if_neg hk0]
      by_cases hk0' : k0 = k'
      · subst hk0'
        rw [dlookup_cons_self, dlookup_cons_self]
      · rw [dlookup_cons_ne hk0', dlookup_cons_ne hk0']
        exact ih

/-- Python `d[k] = v` makes `d[k]` equal `v`. -/
theorem dlookup_setKeyL_self (l : List (String × PyVal)) (k : String) (v : PyVal) :
    dlookup k (setKeyL l k v) = some v := by
  unfold setKeyL
  by_cases h : (dlookup k l).isSome = true
  · rw [if_pos h]
    exact dlookup_replace_self h
  · rw [if_neg h]
    have hn : dlookup k l = Option.none := by
      cases hd : dlookup k l with
      | none => rfl
      | some w => rw [hd] at h; simp at h
    rw [dlookup_append_of_none hn]
    simp [dlookup]

/-- Python `d[k] = v` leaves every other key untouched. -/
theorem dlookup_setKeyL_other (l : List (String × PyVal)) (k : String) (v : PyVal)
    (k' : String) (h : k' ≠ k) : dlookup k' (setKeyL l k v) = dlookup k' l := by
  unfold setKeyL
  by_cases hs : (dlookup k l).isSome = true
  · rw [if_pos hs]
    exact dlookup_replace_other h
  · rw [if_neg hs]
    cases hd : dlookup k' l with
    | some w => exact dlookup_append_of_some hd
    | none =>
      rw [dlookup_append_of_none hd]
      rw [dlookup_cons_ne (fun hh => h hh.symm), dlookup_nil]

theorem optMapM_eq_some_of_all {f : PyVal → Option PyVal} :
    ∀ {xs : List PyVal}, (∀ x ∈ xs, (f x).isSome = true) →
      ∃ ys, optMapM f xs = some ys := by
  intro xs
  induction xs with
  | nil => intro _; exact ⟨[], rfl⟩
  | cons x rest ih =>
    intro h
    have hx := h x (List.mem_cons_self x rest)
    cases hfx : f x with
    | none => rw [hfx] at hx; simp at hx
    | some y =>
      obtain ⟨ys, hys⟩ := ih (fun z hz => h z (List.mem_cons_of_mem x hz))
      exact ⟨y :: ys, by simp [optMapM, hfx, hys]⟩

theorem optMapM_getElem {f : PyVal → Option PyVal} {xs ys : List PyVal}
    (h : optMapM f xs = some ys) (i : Nat) (hx : i < xs.length) (hy : i < ys.length) :
    f xs[i] = some ys[i] := by
  have := optMapM_get h i hx hy
  simpa [List.get_eq_getElem] using this

theorem exMapM_ok_map {f : α → Except HErr β} {g : α → β} :
    ∀ {xs : List α}, (∀ x ∈ xs, f x = .ok (g x)) → exMapM f xs = .ok (xs.map g) := by
  intro xs
  induction xs with
  | nil => intro _; rfl
  | cons x rest ih =>
    intro h
    simp [exMapM, h x (List.mem_cons_self x rest),
      ih (fun z hz => h z (List.mem_cons_of_mem x hz)), Except.map]

theorem tupleOf_plist (xs : List PyVal) : tupleOf (plist xs) = .ok xs := by
  simp [tupleOf, plist]

theorem entryVal_nil_tails (f : PyVal → List String → List String → Option PyVal)
    (k : String) (v : PyVal) : entryVal f k [] v = some v := by
  simp [entryVal]

theorem pyFilterF_succ_dict (n : Nat) (l : List (String × PyVal)) (df af : List String) :
    pyFilterF (n + 1) (pdict l) df af =
      (entriesGo (pyFilterF n) l (fpartsFor df af)).map pdict := by
  show pyFilterStep (pyFilterF n) (pdict l) df af = _
  show (entriesGo (pyFilterF n) (PyDictV.ofPairs l).toPairs (fpartsFor df af)).map pdict = _
  rw [toPairs_ofPairs]

theorem entryVal_plist (f : PyVal → List String → List String → Option PyVal)
    (k : String) (t : List String) (xs : List PyVal) (ht : t ≠ []) :
    entryVal f k t (plist xs) =
      (optMapM (fun x => f x (nestedDefaults k) t) xs).map plist := by
  unfold entryVal
  rw [if_neg ht]
  show (optMapM _ (PyListV.ofList xs).toList).map plist = _
  rw [toList_ofList]

/-- With only dot-free requested paths, `field_parts` is the deduplicated
`include | additional` field list with no nested suffixes. -/
theorem fpartsFor_no_dots (df af : List String)
    (h : ∀ f ∈ allFields df af, '.' ∉ f.data) :
    fpartsFor df af = (allFields df af).map (fun k => (k, ([] : List String))) := by
  have hnd : (allFields df af).Nodup := List.nodup_dedup _
  have hhead : ∀ f ∈ allFields df af, headOf f = f := fun f hf => headOf_eq_self (h f hf)
  have htail : ∀ f ∈ allFields df af, tailOf f = Option.none := fun f hf =>
    tailOf_eq_none (h f hf)
  unfold fpartsFor
  rw [List.map_congr_left hhead]
  have hid : List.map (fun a => a) (allFields df af) = allFields df af :=
    List.map_id' (allFields df af)
  rw [hid, List.dedup_eq_self.mpr hnd]
  apply List.map_congr_left
  intro k _
  congr 1
  rw [List.filterMap_eq_nil_iff]
  intro f hf
  by_cases hfk : headOf f = k
  · rw [if_pos hfk]
    exact htail f hf
  · rw [if_neg hfk]

/-- With only dot-free requested paths, the projector (at any positive
fuel) restricts the document to the deduplicated include-set keys,
verbatim. -/
theorem pyFilterF_no_dots_spec (n : Nat) (l : List (String × PyVal)) (df af : List String)
    (h : ∀ f ∈ allFields df af, '.' ∉ f.data) :
    ∃ out, pyFilterF (n + 1) (pdict l) df af = some (pdict out) ∧
      ∀ k, dlookup k out = if k ∈ allFields df af then dlookup k l else Option.none := by
  have hfp := fpartsFor_no_dots df af h
  have hkeys : (fpartsFor df af).map Prod.fst = allFields df af := by
    rw [hfp, List.map_map]
    exact List.map_id' _
  simp only [pyFilterF, pyFilterStep, pdict]
  rw [toPairs_ofPairs]
  have hsome : (entriesGo (pyFilterF n) l (fpartsFor df af)).isSome = true := by
    apply entriesGo_isSome
    intro kt hm v hv
    rw [hfp] at hm
    obtain ⟨k, -, hk⟩ := List.mem_map.mp hm
    rw [← hk]
    simp [entryVal]
  rw [Option.isSome_iff_exists] at hsome
  obtain ⟨out, hout⟩ := hsome
  refine ⟨out, by rw [hout]; rfl, ?_⟩
  intro k
  by_cases hk : k ∈ allFields df af
  · rw [if_pos hk]
    have hkfp : (k, ([] : List String)) ∈ fpartsFor df af := by
      rw [hfp]
      exact List.mem_map.mpr ⟨k, hk, rfl⟩
    have hchar := entriesGo_lookup (fparts_keys_nodup df af) hout hkfp
    cases hv : dlookup k l with
    | none => exact hchar.1 hv
    | some v =>
      obtain ⟨w, hw, hlook⟩ := hchar.2 v hv
      simp [entryVal] at hw
      rw [hlook, hw]
  · rw [if_neg hk]
    apply entriesGo_lookup_not_mem hout
    rw [hkeys]
    exact hk

/-- **C8.** Against any cache coherent with the store (whatever order its
entries were populated in), a hydrated-and-projected conversation read with
`fields=blocks.responses` returns the blocks in exactly the stored
`blockIds` order, and within the i-th block the responses are exactly the
stored `responseIds`-ordered response documents: projection preserves the
element order and length of every list it touches. -/
theorem claim_C8_order_preservation
    (store : Store) (cache : Cache) (cid : String) (ids : List String)
    (cl : List (String × PyVal))
    (blDoc : String → List (String × PyVal))
    (ridsOf : String → List String)
    (rDoc : String → String → List (String × PyVal))
    (hco : Coherent store cache)
    (hconv : s3_get store (get_s3_key cid Option.none Option.none) = .ok (pdict cl))
    (hbids : dlookup "blockIds" cl = some (plist (ids.map PyVal.str)))
    (hbl : ∀ bid ∈ ids,
      s3_get store (get_s3_key cid (some bid) Option.none) = .ok (pdict (blDoc bid)))
    (hblid : ∀ bid ∈ ids, dlookup "id" (blDoc bid) = some (.str bid))
    (hblrids : ∀ bid ∈ ids,
      dlookup "responseIds" (blDoc bid) = some (plist ((ridsOf bid).map PyVal.str)))
    (hrdoc : ∀ bid ∈ ids, ∀ rid ∈ ridsOf bid,
      s3_get store (get_s3_key cid (some bid) (some rid)) = .ok (pdict (rDoc bid rid)))
    (_hrid : ∀ bid ∈ ids, ∀ rid ∈ ridsOf bid,
      dlookup "id" (rDoc bid rid) = some (.str rid)) :
    ∃ out cache', read_conversation store cache cid (some "blocks.responses") =
        (.ok (pdict out), cache') ∧
      ∃ bs, dlookup "blocks" out = some (plist bs) ∧ bs.length = ids.length ∧
        ∀ (i : Nat) (hi : i < bs.length) (hi' : i < ids.length),
          ∃ ob, bs[i] = pdict ob ∧
            dlookup "id" ob = some (.str ids[i]) ∧
            dlookup "responses" ob = some (plist ((ridsOf ids[i]).map
              (fun rid => pdict (rDoc ids[i] rid)))) := by
  have hcond : fetchBlockRespCond "blocks.responses" = true := by decide
  have hguard : hydrateBlocksCond (some "blocks.responses") = true := by decide
  -- the producer value of each block fetch
  have hfbp : ∀ bid ∈ ids, fetch_block_p store cid (.str bid) "blocks.responses" =
      .ok (pdict (setKeyL (blDoc bid) "responses"
        (plist ((ridsOf bid).map (fun rid => pdict (rDoc bid rid)))))) := by
    intro bid hbid
    have hresp : fetch_responses_p store cid (.str bid) ((ridsOf bid).map PyVal.str) =
        .ok ((ridsOf bid).map (fun rid => pdict (rDoc bid rid))) := by
      unfold fetch_responses_p
      rw [exMapM_ok_map (g := fun ridV => pdict (rDoc bid (pyStr ridV)))]
      · rw [List.map_map]
        rfl
      · intro ridV hmem
        obtain ⟨rid, hridm, hr⟩ := List.mem_map.mp hmem
        rw [← hr]
        exact hrdoc bid hbid rid hridm
    unfold fetch_block_p
    simp [hbl bid hbid, hcond, pdict, toPairs_ofPairs, hblrids bid hbid, tupleOf_plist,
      hresp, Except.map, pyStr]
  -- the producer value of the batch fetch, in blockIds order
  have hfbsp : fetch_blocks_p store cid (ids.map PyVal.str) "blocks.responses" =
      .ok (ids.map (fun bid => pdict (setKeyL (blDoc bid) "responses"
        (plist ((ridsOf bid).map (fun rid => pdict (rDoc bid rid))))))) := by
    unfold fetch_blocks_p
    rw [exMapM_ok_map (g := fun bidV => pdict (setKeyL (blDoc (pyStr bidV)) "responses"
      (plist ((ridsOf (pyStr bidV)).map (fun rid => pdict (rDoc (pyStr bidV) rid))))))]
    · rw [List.map_map]
      rfl
    · intro bidV hmem
      obtain ⟨bid, hbidm, hb⟩ := List.mem_map.mp hmem
      rw [← hb]
      exact hfbp bid hbidm
  have hnt : ∀ b ∈ ids.map PyVal.str, b.isTup = false := by
    intro b hb
    obtain ⟨bid, -, hb'⟩ := List.mem_map.mp hb
    rw [← hb']
    rfl
  obtain ⟨cache', hbc, -⟩ :=
    fetch_blocks_c_spec cid (ids.map PyVal.str) "blocks.responses" hco hnt
  rw [hfbsp] at hbc
  simp only [Except.map] at hbc
  have hhyd : read_conversation_hydrated store cache cid (some "blocks.responses") =
      (.ok (pdict (setKeyL cl "blocks"
        (plist (ids.map (fun bid => pdict (setKeyL (blDoc bid) "responses"
          (plist ((ridsOf bid).map (fun rid => pdict (rDoc bid rid)))))))))), cache') := by
    unfold read_conversation_hydrated
    simp [hconv, hguard, pdict, toPairs_ofPairs, hbids, tupleOf_plist, hbc]
  -- the inner, dot-free projection of each hydrated block
  have hinner : ∀ bid ∈ ids, ∃ outb,
      pyFilterF 1 (pdict (setKeyL (blDoc bid) "responses"
        (plist ((ridsOf bid).map (fun rid => pdict (rDoc bid rid))))))
        default_block_fields ["responses"] = some (pdict outb) ∧
      ∀ k, dlookup k outb =
        if k ∈ allFields default_block_fields ["responses"] then
          dlookup k (setKeyL (blDoc bid) "responses"
            (plist ((ridsOf bid).map (fun rid => pdict (rDoc bid rid)))))
        else Option.none := by
    intro bid _
    exact pyFilterF_no_dots_spec 0 _ default_block_fields ["responses"] (by decide)
  -- the top-level projection succeeds
  have hfp : fpartsFor default_conversation_fields ["blocks.responses"] =
      [("updatedAt", []), ("status", []), ("summaryText", []), ("summaryType", []),
        ("blockIds", []), ("id", []), ("inputText", []), ("responseIds", []),
        ("createdBy", []), ("createdAt", []), ("blocks", ["responses"])] := by decide
  have hblocksLook : dlookup "blocks" (setKeyL cl "blocks"
      (plist (ids.map (fun bid => pdict (setKeyL (blDoc bid) "responses"
        (plist ((ridsOf bid).map (fun rid => pdict (rDoc bid rid))))))))) =
      some (plist (ids.map (fun bid => pdict (setKeyL (blDoc bid) "responses"
        (plist ((ridsOf bid).map (fun rid => pdict (rDoc bid rid)))))))) :=
    dlookup_setKeyL_self _ _ _
  have hBSsome : ∀ x ∈ ids.map (fun bid => pdict (setKeyL (blDoc bid) "responses"
      (plist ((ridsOf bid).map (fun rid => pdict (rDoc bid rid)))))),
      ((fun x => pyFilterF 1 x (nestedDefaults "blocks") ["responses"]) x).isSome = true := by
    intro x hx
    obtain ⟨bid, hbidm, hb⟩ := List.mem_map.mp hx
    obtain ⟨outb, houtb, -⟩ := hinner bid hbidm
    have hnd : nestedDefaults "blocks" = default_block_fields := by decide
    simp only [← hb, hnd]
    rw [houtb]
    rfl
  obtain ⟨ys, hys⟩ := optMapM_eq_some_of_all hBSsome
  have hentry : entryVal (pyFilterF 1) "blocks" ["responses"]
      (plist (ids.map (fun bid => pdict (setKeyL (blDoc bid) "responses"
        (plist ((ridsOf bid).map (fun rid => pdict (rDoc bid rid)))))))) =
      some (plist ys) := by
    rw [entryVal_plist _ _ _ _ (by decide), hys]
    rfl
  have hsome : (entriesGo (pyFilterF 1) (setKeyL cl "blocks"
      (plist (ids.map (fun bid => pdict (setKeyL (blDoc bid) "responses"
        (plist ((ridsOf bid).map (fun rid => pdict (rDoc bid rid)))))))))
      (fpartsFor default_conversation_fields ["blocks.responses"])).isSome = true := by
    apply entriesGo_isSome
    intro kt hm v hv
    rw [hfp] at hm
    simp only [List.mem_cons, List.not_mem_nil, or_false] at hm
    rcases hm with rfl | rfl | rfl | rfl | rfl | rfl | rfl | rfl | rfl | rfl | rfl
    · simp [entryVal_nil_tails]
    · simp [entryVal_nil_tails]
    · simp [entryVal_nil_tails]
    · simp [entryVal_nil_tails]
    · simp [entryVal_nil_tails]
    · simp [entryVal_nil_tails]
    · simp [entryVal_nil_tails]
    · simp [entryVal_nil_tails]
    · simp [entryVal_nil_tails]
    · simp [entryVal_nil_tails]
    · rw [hblocksLook] at hv
      injection hv with hv
      rw [← hv, hentry]
      rfl
  rw [Option.isSome_iff_exists] at hsome
  obtain ⟨out, hout⟩ := hsome
  have hfilter : filter_nested_fields (pdict (setKeyL cl "blocks"
      (plist (ids.map (fun bid => pdict (setKeyL (blDoc bid) "responses"
        (plist ((ridsOf bid).map (fun rid => pdict (rDoc bid rid))))))))))
      default_conversation_fields (tokensOf (some "blocks.responses")) =
      some (pdict out) := by
    rw [show tokensOf (some "blocks.responses") = ["blocks.responses"] from rfl]
    unfold filter_nested_fields
    rw [show filterFuel default_conversation_fields ["blocks.responses"] = 1 + 1 from rfl]
    rw [pyFilterF_succ_dict, hout]
    rfl
  refine ⟨out, cache', ?_, ?_⟩
  · unfold read_conversation
    simp [hhyd, hfilter]
  · have hmem : ("blocks", ["responses"]) ∈
        fpartsFor default_conversation_fields ["blocks.responses"] := by
      rw [hfp]
      simp
    have hchar := entriesGo_lookup (fparts_keys_nodup default_conversation_fields
      ["blocks.responses"]) hout hmem
    obtain ⟨w, hw, hlook⟩ := hchar.2 _ hblocksLook
    rw [hentry] at hw
    injection hw with hw
    refine ⟨ys, by rw [hlook, hw], ?_, ?_⟩
    · have hlen := optMapM_length hys
      simpa using hlen
    · intro i hi hi'
      have hxlen : i < (ids.map (fun bid => pdict (setKeyL (blDoc bid) "responses"
          (plist ((ridsOf bid).map (fun rid => pdict (rDoc bid rid))))))).length := by
        simpa using hi'
      have hget := optMapM_getElem hys i hxlen hi
      have hnd2 : nestedDefaults "blocks" = default_block_fields := by decide
      simp only [hnd2] at hget
      have hBi : (ids.map (fun bid => pdict (setKeyL (blDoc bid) "responses"
          (plist ((ridsOf bid).map (fun rid => pdict (rDoc bid rid)))))))[i] =
          pdict (setKeyL (blDoc ids[i]) "responses"
            (plist ((ridsOf ids[i]).map (fun rid => pdict (rDoc ids[i] rid))))) := by
        rw [List.getElem_map]
      rw [hBi] at hget
      obtain ⟨outb, houtb, hspec⟩ := hinner ids[i] (List.getElem_mem hi')
      rw [houtb] at hget
      injection hget with hget
      refine ⟨outb, hget.symm, ?_, ?_⟩
      · rw [hspec "id", if_pos (by decide),
          dlookup_setKeyL_other _ _ _ _ (by decide)]
        exact hblid ids[i] (List.getElem_mem hi')
      · rw [hspec "responses", if_pos (by decide)]
        exact dlookup_setKeyL_self _ _ _

/-- Closed witness for C8: a concrete two-block store (block b1 with one
response r1, block b2 with none), empty cache. -/
theorem claim_C8_witness :
    ∃ out cache',
      read_conversation
        [(get_s3_key "c1" Option.none Option.none,
            pdict [("id", PyVal.str "c1"),
              ("blockIds", plist [PyVal.str "b1", PyVal.str "b2"])]),
         (get_s3_key "c1" (some "b1") Option.none,
            pdict [("id", PyVal.str "b1"), ("responseIds", plist [PyVal.str "r1"])]),
         (get_s3_key "c1" (some "b2") Option.none,
            pdict [("id", PyVal.str "b2"), ("responseIds", plist [])]),
         (get_s3_key "c1" (some "b1") (some "r1"),
            pdict [("id", PyVal.str "r1")])]
        [] "c1" (some "blocks.responses") = (.ok (pdict out), cache') ∧
      ∃ bs, dlookup "blocks" out = some (plist bs) ∧
        bs.length = (["b1", "b2"] : List String).length ∧
        ∀ (i : Nat) (hi : i < bs.length)
          (hi' : i < (["b1", "b2"] : List String).length),
          ∃ ob, bs[i] = pdict ob ∧
            dlookup "id" ob = some (.str (["b1", "b2"] : List String)[i]) ∧
            dlookup "responses" ob = some (plist
              (((if (["b1", "b2"] : List String)[i] = "b1" then ["r1"]
                  else []) : List String).map
                (fun rid => pdict [("id", PyVal.str rid)]))) :=
  claim_C8_order_preservation
    [(get_s3_key "c1" Option.none Option.none,
        pdict [("id", PyVal.str "c1"),
          ("blockIds", plist [PyVal.str "b1", PyVal.str "b2"])]),
     (get_s3_key "c1" (some "b1") Option.none,
        pdict [("id", PyVal.str "b1"), ("responseIds", plist [PyVal.str "r1"])]),
     (get_s3_key "c1" (some "b2") Option.none,
        pdict [("id", PyVal.str "b2"), ("responseIds", plist [])]),
     (get_s3_key "c1" (some "b1") (some "r1"),
        pdict [("id", PyVal.str "r1")])]
    [] "c1" ["b1", "b2"]
    [("id", PyVal.str "c1"), ("blockIds", plist [PyVal.str "b1", PyVal.str "b2"])]
    (fun bid => if bid = "b1"
      then [("id", PyVal.str "b1"), ("responseIds", plist [PyVal.str "r1"])]
      else [("id", PyVal.str "b2"), ("responseIds", plist [])])
    (fun bid => if bid = "b1" then ["r1"] else [])
    (fun _ rid => [("id", PyVal.str rid)])
    (coherent_nil _) (by decide) (by decide) (by decide) (by decide) (by decide)
    (by decide) (by decide)

/-! ### The pydantic model layer (models.py)

Pydantic v1 `.dict()` serializes **every declared field**, including those
still holding their `None` default, so a `Conversation` always serializes a
`blocks` entry and a `Block` always serializes a `responses` entry.  Nested
models are serialized recursively.  In the `Partial*` bodies an `Option`
field with value `Option.none` models a field the caller did not set
(`exclude_unset=True` then drops it); explicitly sending a JSON `null` for
an optional field is not modelled. -/

/-- `models.User`. -/
structure User where
  id : String
  email : String
  displayName : Option String := Option.none
deriving DecidableEq

def optStrV : Option String → PyVal
  | some s => .str s
  | Option.none => .none

def optIntV : Option Int → PyVal
  | some n => .int n
  | Option.none => .none

def User.dictPairs (u : User) : List (String × PyVal) :=
  [("id", .str u.id), ("email", .str u.email),
   ("displayName", optStrV u.displayName)]

def User.dictV (u : User) : PyVal := pdict u.dictPairs

/-- `models.Response`. `payload : Optional[Any]` may hold any JSON value
(including an explicit null, `PyVal.none`). -/
structure Response where
  id : String
  source : String
  responseType : String
  payload : PyVal := .none
  requestedAt : Option Int := Option.none
  respondedAt : Option Int := Option.none
deriving DecidableEq

def Response.dictPairs (r : Response) : List (String × PyVal) :=
  [("id", .str r.id), ("source", .str r.source),
   ("responseType", .str r.responseType), ("payload", r.payload),
   ("requestedAt", optIntV r.requestedAt),
   ("respondedAt", optIntV r.respondedAt)]

def Response.dictV (r : Response) : PyVal := pdict r.dictPairs

/-- `models.Block`. -/
structure Block where
  id : String
  inputText : String
  responseIds : List String
  createdBy : User
  createdAt : Int
  responses : Option (List Response) := Option.none
deriving DecidableEq

def optRespListV : Option (List Response) → PyVal
  | some rs => plist (rs.map Response.dictV)
  | Option.none => .none

def Block.dictPairs (b : Block) : List (String × PyVal) :=
  [("id", .str b.id), ("inputText", .str b.inputText),
   ("responseIds", plist (b.responseIds.map PyVal.str)),
   ("createdBy", b.createdBy.dictV), ("createdAt", .int b.createdAt),
   ("responses", optRespListV b.responses)]

def Block.dictV (b : Block) : PyVal := pdict b.dictPairs

/-- `models.Conversation`. -/
structure Conversation where
  id : String
  createdBy : User
  createdAt : Int
  updatedAt : Int
  status : String
  summaryText : Option String := Option.none
  summaryType : Option String := Option.none
  blockIds : List String
  blocks : Option (List Block) := Option.none
deriving DecidableEq

def optBlockListV : Option (List Block) → PyVal
  | some bs => plist (bs.map Block.dictV)
  | Option.none => .none

def Conversation.dictPairs (c : Conversation) : List (String × PyVal) :=
  [("id", .str c.id), ("createdBy", c.createdBy.dictV),
   ("createdAt", .int c.createdAt), ("updatedAt", .int c.updatedAt),
   ("status", .str c.status), ("summaryText", optStrV c.summaryText),
   ("summaryType", optStrV c.summaryType),
   ("blockIds", plist (c.blockIds.map PyVal.str)),
   ("blocks", optBlockListV c.blocks)]

def Conversation.dictV (c : Conversation) : PyVal := pdict c.dictPairs

/-- `models.PartialConversation`: `createdBy` is required, everything else
optional with `None` default (`Option.none` = unset).  `users` and `session`
are not `Conversation` fields and are ignored by `Conversation(**data)`;
`blocks`, when set, is a list of validated block values. -/
structure PartialConversation where
  createdBy : User
  status : Option String := Option.none
  summaryText : Option String := Option.none
  summaryType : Option String := Option.none
  blockIds : Option (List String) := Option.none
  users : Option PyVal := Option.none
  session : Option PyVal := Option.none
  blocks : Option (List Block) := Option.none
deriving DecidableEq

/-- Modelled from the spec: `PartialBlock` is imported by main.py but absent
from src/models.py; per the spec's "create endpoints accept a partial-entity
body" it is the partial form of `Block` — the caller-supplied `inputText`
(required for the constructed `Block` to validate) plus optional overrides
for `createdBy` and `responseIds`. -/
structure PartialBlock where
  inputText : String
  createdBy : Option User := Option.none
  responseIds : Option (List String) := Option.none
deriving DecidableEq

/-- `models.PartialResponse`. -/
structure PartialResponse where
  source : String
  responseType : String
  payload : Option PyVal := Option.none
  requestedAt : Option Int := Option.none
  respondedAt : Option Int := Option.none
deriving DecidableEq

/-! ### Pydantic validation of JSON documents (`Model(**data)`)

An uncaught `ValidationError` (or `KeyError`/`AttributeError` from the raw
dict manipulation in `create_block`).  Only exact-type payloads are
accepted; pydantic v1's lossy type coercions (e.g. int-to-str) are not
modelled, and extra keys are ignored as under the default `Config`. -/

def validationErr : HErr := ⟨.none, "ValidationError"⟩

def keyErr : HErr := ⟨.none, "KeyError"⟩

def parseStrV : PyVal → Except HErr String
  | .str s => .ok s
  | _ => .error validationErr

def parseIntV : PyVal → Except HErr Int
  | .int n => .ok n
  | _ => .error validationErr

def parseOptIntV : PyVal → Except HErr (Option Int)
  | .int n => .ok (some n)
  | .none => .ok Option.none
  | _ => .error validationErr

def parseStrListV : PyVal → Except HErr (List String)
  | .list l => exMapM parseStrV l.toList
  | _ => .error validationErr

def parseUser : PyVal → Except HErr User
  | .dict d =>
    match dlookup "id" d.toPairs, dlookup "email" d.toPairs with
    | some iv, some ev =>
      match parseStrV iv, parseStrV ev with
      | .ok i, .ok e =>
        match (dlookup "displayName" d.toPairs).getD .none with
        | .str s => .ok ⟨i, e, some s⟩
        | .none => .ok ⟨i, e, Option.none⟩
        | _ => .error validationErr
      | _, _ => .error validationErr
    | _, _ => .error validationErr
  | _ => .error validationErr

def parseResponse : PyVal → Except HErr Response
  | .dict d =>
    match dlookup "id" d.toPairs, dlookup "source" d.toPairs,
        dlookup "responseType" d.toPairs with
    | some iv, some sv, some tv =>
      match parseStrV iv, parseStrV sv, parseStrV tv,
          parseOptIntV ((dlookup "requestedAt" d.toPairs).getD .none),
          parseOptIntV ((dlookup "respondedAt" d.toPairs).getD .none) with
      | .ok i, .ok s, .ok t, .ok rq, .ok rp =>
        .ok ⟨i, s, t, (dlookup "payload" d.toPairs).getD .none, rq, rp⟩
      | _, _, _, _, _ => .error validationErr
    | _, _, _ => .error validationErr
  | _ => .error validationErr

def parseResponsesOpt : PyVal → Except HErr (Option (List Response))
  | .none => .ok Option.none
  | .list l => (exMapM parseResponse l.toList).map some
  | _ => .error validationErr

/-- `Block(**data)` on a JSON dict given as a pair list. -/
def parseBlock (l : List (String × PyVal)) : Except HErr Block :=
  match dlookup "id" l, dlookup "inputText" l, dlookup "responseIds" l,
      dlookup "createdBy" l, dlookup "createdAt" l with
  | some iv, some tv, some rv, some uv, some av =>
    match parseStrV iv, parseStrV tv, parseStrListV rv, parseUser uv,
        parseIntV av with
    | .ok i, .ok t, .ok rs, .ok u, .ok a =>
      (parseResponsesOpt ((dlookup "responses" l).getD .none)).map
        (fun resp => ⟨i, t, rs, u, a, resp⟩)
    | _, _, _, _, _ => .error validationErr
  | _, _, _, _, _ => .error validationErr

/-! ### Write handlers (main.py lines 123-159, 176-180, 210-235, 244-248,
258-281)

The generated uuid4 ids and `int(time.time())` are passed in as parameters.
Each `s3_utils.put_json_to_s3` prepends its entry to the store, so the
resulting store lists the writes newest-first; writes performed before a
later uncaught exception are kept, which is why the fallible handlers
return the store alongside the `Except`. -/

/-- `create_conversation` (main.py lines 123-159): build the default
conversation data, overlay the caller's set fields, append the paired
block's id to `blockIds`, then persist the conversation and the block. -/
def create_conversation (store : Store) (query : String)
    (pc : PartialConversation) (newCid newBid : String) (epoch : Int) :
    Conversation × Store :=
  let conversation : Conversation := {
    id := newCid
    createdBy := pc.createdBy
    createdAt := epoch
    updatedAt := epoch
    status := pc.status.getD "OPEN"
    summaryText := some (pc.summaryText.getD query)
    summaryType := some (pc.summaryType.getD "UNKNOWN")
    blockIds := pc.blockIds.getD []
    blocks := pc.blocks }
  let new_block : Block := {
    id := newBid
    inputText := query
    responseIds := []
    createdAt := epoch
    createdBy := conversation.createdBy
    responses := Option.none }
  let conversation' := { conversation with
    blockIds := conversation.blockIds ++ [new_block.id] }
  let store₁ := s3_put store (get_s3_key conversation'.id Option.none Option.none)
    conversation'.dictV
  let store₂ := s3_put store₁
    (get_s3_key conversation'.id (some new_block.id) Option.none) new_block.dictV
  (conversation', store₂)

/-- `update_conversation` (main.py lines 176-180): a single whole-document
overwrite of the serialized body. -/
def update_conversation (store : Store) (cid : String) (c : Conversation) :
    Conversation × Store :=
  (c, s3_put store (get_s3_key cid Option.none Option.none) c.dictV)

/-- The hard-coded fallback author of `create_block` (main.py lines 217-221). -/
def default_created_by : User :=
  ⟨"himanshu@bruviti_com", "himanshu@bruviti.com", some "Himanshu"⟩

/-- Python truthiness, as tested by `x or y`. -/
def pyTruthy : PyVal → Bool
  | .none => false
  | .bool b => b
  | .int n => n != 0
  | .str s => s != ""
  | .list l => l.toList != []
  | .tup l => l.toList != []
  | .dict d => d.toPairs != []

/-- `create_block` (main.py lines 210-235): persist the new block, then
re-read the conversation document raw and append the block id to its
`blockIds` (`conversation['blockIds'] or []`, a `KeyError` if the key is
absent and an error if the truthy value has no `append`). -/
def create_block (store : Store) (cid : String) (pb : PartialBlock)
    (newBid : String) (epoch : Int) : Except HErr Block × Store :=
  let block : Block := {
    id := newBid
    createdAt := epoch
    responseIds := pb.responseIds.getD []
    createdBy := pb.createdBy.getD default_created_by
    inputText := pb.inputText
    responses := Option.none }
  let store₁ := s3_put store (get_s3_key cid (some block.id) Option.none) block.dictV
  match s3_get store₁ (get_s3_key cid Option.none Option.none) with
  | .error e => (.error e, store₁)
  | .ok (.dict cl) =>
    match dlookup "blockIds" cl.toPairs with
    | Option.none => (.error keyErr, store₁)
    | some bidsV =>
      match if pyTruthy bidsV then bidsV else plist [] with
      | .list l =>
        let conv' := setKeyL cl.toPairs "blockIds"
          (plist (l.toList ++ [PyVal.str block.id]))
        (.ok block,
          s3_put store₁ (get_s3_key cid Option.none Option.none) (pdict conv'))
      | _ => (.error typeErr, store₁)
  | .ok _ => (.error typeErr, store₁)

/-- `update_block` (main.py lines 244-248): a single whole-document
overwrite of the serialized body. -/
def update_block (store : Store) (cid bid : String) (b : Block) :
    Block × Store :=
  (b, s3_put store (get_s3_key cid (some bid) Option.none) b.dictV)

/-- `create_response` (main.py lines 258-281): build the response (the
`'respondedAt' not in partial_response.dict()` test is always false, since
`.dict()` lists every declared field, so the `respondedAt` default is set
once), persist it, then re-read the parent block THROUGH THE CACHED
`fetch_block(conversation_id, block_id, '')`, append the response id to its
`responseIds`, and overwrite the block document. -/
def create_response (store : Store) (cache : Cache) (cid bid : String)
    (pr : PartialResponse) (newRid : String) (epoch : Int) :
    (Except HErr Response × Store) × Cache :=
  let response : Response := {
    id := newRid
    source := pr.source
    responseType := pr.responseType
    payload := pr.payload.getD .none
    requestedAt := pr.requestedAt
    respondedAt := some (pr.respondedAt.getD epoch) }
  let store₁ := s3_put store (get_s3_key cid (some bid) (some response.id))
    response.dictV
  match fetch_block_c store₁ cache cid (.str bid) "" with
  | (.error e, cache') => ((.error e, store₁), cache')
  | (.ok bv, cache') =>
    match bv with
    | .dict bd =>
      match parseBlock bd.toPairs with
      | .error e => ((.error e, store₁), cache')
      | .ok block =>
        let block' := { block with
          responseIds := block.responseIds ++ [response.id] }
        ((.ok response,
            s3_put store₁ (get_s3_key cid (some bid) Option.none) block'.dictV),
          cache')
    | _ => ((.error validationErr, store₁), cache')

/-! ### Serialization round-trips: `Model(**model.dict())` restores the model -/

theorem parseUser_dictV (u : User) : parseUser u.dictV = .ok u := by
  obtain ⟨i, e, d⟩ := u
  cases d <;> rfl

theorem parseResponse_dictV (r : Response) : parseResponse r.dictV = .ok r := by
  obtain ⟨i, s, t, p, rq, rp⟩ := r
  cases rq <;> cases rp <;> rfl

theorem exMapM_parseResponse_map (rs : List Response) :
    exMapM parseResponse (rs.map Response.dictV) = .ok rs := by
  induction rs with
  | nil => rfl
  | cons r rs ih => simp [exMapM, parseResponse_dictV, ih, Except.map]

theorem parseResponsesOpt_optRespListV (o : Option (List Response)) :
    parseResponsesOpt (optRespListV o) = .ok o := by
  cases o with
  | none => rfl
  | some rs =>
    show (exMapM parseResponse (PyListV.ofList (rs.map Response.dictV)).toList).map
        some = _
    rw [toList_ofList, exMapM_parseResponse_map]
    rfl

theorem parseStrListV_map_str (ids : List String) :
    parseStrListV (plist (ids.map PyVal.str)) = .ok ids := by
  show exMapM parseStrV (PyListV.ofList (ids.map PyVal.str)).toList = _
  rw [toList_ofList]
  induction ids with
  | nil => rfl
  | cons x xs ih => simp [exMapM, parseStrV, ih, Except.map]

theorem parseBlock_dictPairs (b : Block) : parseBlock b.dictPairs = .ok b := by
  obtain ⟨i, t, rs, u, a, resp⟩ := b
  have h1 : dlookup "id" (Block.dictPairs ⟨i, t, rs, u, a, resp⟩) =
      some (.str i) := rfl
  have h2 : dlookup "inputText" (Block.dictPairs ⟨i, t, rs, u, a, resp⟩) =
      some (.str t) := rfl
  have h3 : dlookup "responseIds" (Block.dictPairs ⟨i, t, rs, u, a, resp⟩) =
      some (plist (rs.map PyVal.str)) := rfl
  have h4 : dlookup "createdBy" (Block.dictPairs ⟨i, t, rs, u, a, resp⟩) =
      some (User.dictV u) := rfl
  have h5 : dlookup "createdAt" (Block.dictPairs ⟨i, t, rs, u, a, resp⟩) =
      some (.int a) := rfl
  have h6 : dlookup "responses" (Block.dictPairs ⟨i, t, rs, u, a, resp⟩) =
      some (optRespListV resp) := rfl
  simp only [parseBlock, h1, h2, h3, h4, h5, h6, parseStrV,
    parseStrListV_map_str, parseUser_dictV, parseIntV, Option.getD_some,
    parseResponsesOpt_optRespListV, Except.map]

/-- **C9.** A create-conversation call whose partial body sets none of
`status`, `summaryType`, `blockIds` returns a conversation with status
`"OPEN"`, summaryType `"UNKNOWN"` and `blockIds = [newBid]` (the single
paired block), and writes exactly two documents: the conversation at its
derived key and, on top of it, a `Block` at the derived key of that single
`blockIds` entry whose `inputText` is the supplied query text. -/
theorem claim_C9_create_conversation (store : Store) (query : String)
    (pc : PartialConversation) (newCid newBid : String) (epoch : Int)
    (hst : pc.status = Option.none) (hsu : pc.summaryType = Option.none)
    (hbi : pc.blockIds = Option.none) :
    (create_conversation store query pc newCid newBid epoch).1.status = "OPEN" ∧
    (create_conversation store query pc newCid newBid epoch).1.summaryType =
      some "UNKNOWN" ∧
    (create_conversation store query pc newCid newBid epoch).1.blockIds =
      [newBid] ∧
    (create_conversation store query pc newCid newBid epoch).2 =
      (get_s3_key newCid (some newBid) Option.none,
        Block.dictV ⟨newBid, query, [], pc.createdBy, epoch, Option.none⟩) ::
      (get_s3_key newCid Option.none Option.none,
        Conversation.dictV
          (create_conversation store query pc newCid newBid epoch).1) ::
      store := by
  unfold create_conversation
  simp [hst, hsu, hbi, s3_put]

/-- Closed witness for C9 at a concrete empty store. -/
theorem claim_C9_witness :
    (create_conversation [] "hello"
        ⟨⟨"u1", "u1@example.com", Option.none⟩, Option.none, Option.none,
          Option.none, Option.none, Option.none, Option.none, Option.none⟩
        "c1" "b1" 7).1.status = "OPEN" ∧
    (create_conversation [] "hello"
        ⟨⟨"u1", "u1@example.com", Option.none⟩, Option.none, Option.none,
          Option.none, Option.none, Option.none, Option.none, Option.none⟩
        "c1" "b1" 7).1.summaryType = some "UNKNOWN" ∧
    (create_conversation [] "hello"
        ⟨⟨"u1", "u1@example.com", Option.none⟩, Option.none, Option.none,
          Option.none, Option.none, Option.none, Option.none, Option.none⟩
        "c1" "b1" 7).1.blockIds = ["b1"] ∧
    (create_conversation [] "hello"
        ⟨⟨"u1", "u1@example.com", Option.none⟩, Option.none, Option.none,
          Option.none, Option.none, Option.none, Option.none, Option.none⟩
        "c1" "b1" 7).2 =
      (get_s3_key "c1" (some "b1") Option.none,
        Block.dictV ⟨"b1", "hello", [], ⟨"u1", "u1@example.com", Option.none⟩,
          7, Option.none⟩) ::
      (get_s3_key "c1" Option.none Option.none,
        Conversation.dictV
          (create_conversation [] "hello"
            ⟨⟨"u1", "u1@example.com", Option.none⟩, Option.none, Option.none,
              Option.none, Option.none, Option.none, Option.none, Option.none⟩
            "c1" "b1" 7).1) ::
      [] :=
  claim_C9_create_conversation [] "hello"
    ⟨⟨"u1", "u1@example.com", Option.none⟩, Option.none, Option.none,
      Option.none, Option.none, Option.none, Option.none, Option.none⟩
    "c1" "b1" 7 rfl rfl rfl

/-- **C10.** `create_response` re-reads the parent block through the cached
`fetch_block(conversation_id, block_id, '')`: when the cache holds an entry
at that key whose value is a serialized block `b`, the block document
written back is that cached value with the new response id appended to its
`responseIds` — whatever the store currently holds at the block's key (the
store is unconstrained here, and is only extended by the two writes). -/
theorem claim_C10_cached_parent_rewrite (store : Store) (cache : Cache)
    (cid bid : String) (pr : PartialResponse) (newRid : String) (epoch : Int)
    (b : Block)
    (hhit : clookup (fetch_block_cache_key (.str cid) (.str bid) (.str ""))
      cache = some b.dictV) :
    create_response store cache cid bid pr newRid epoch =
      ((.ok ⟨newRid, pr.source, pr.responseType, pr.payload.getD .none,
          pr.requestedAt, some (pr.respondedAt.getD epoch)⟩,
        (get_s3_key cid (some bid) Option.none,
          Block.dictV { b with responseIds := b.responseIds ++ [newRid] }) ::
        (get_s3_key cid (some bid) (some newRid),
          Response.dictV ⟨newRid, pr.source, pr.responseType,
            pr.payload.getD .none, pr.requestedAt,
            some (pr.respondedAt.getD epoch)⟩) :: store),
        cache) := by
  unfold create_response
  simp only [fetch_block_c, hhit, Block.dictV, pdict, toPairs_ofPairs,
    parseBlock_dictPairs, s3_put]

/-- Closed witness for C10: a cache entry for `("c1", "b1", '')` holding a
block whose stored counterpart is absent from the (empty) store; the block
written back is the cached one with the response id appended. -/
theorem claim_C10_witness :
    create_response [] [(fetch_block_cache_key (.str "c1") (.str "b1")
        (.str ""),
      (Block.dictV ⟨"b1", "hi", ["r0"], ⟨"u1", "u1@example.com", Option.none⟩,
        3, Option.none⟩ : PyVal))] "c1" "b1"
      ⟨"model", "text", Option.none, Option.none, Option.none⟩ "r1" 9 =
      ((.ok ⟨"r1", "model", "text", .none, Option.none, some 9⟩,
        (get_s3_key "c1" (some "b1") Option.none,
          Block.dictV ⟨"b1", "hi", ["r0", "r1"],
            ⟨"u1", "u1@example.com", Option.none⟩, 3, Option.none⟩) ::
        (get_s3_key "c1" (some "b1") (some "r1"),
          Response.dictV ⟨"r1", "model", "text", .none, Option.none,
            some 9⟩) :: []),
        [(fetch_block_cache_key (.str "c1") (.str "b1") (.str ""),
          (Block.dictV ⟨"b1", "hi", ["r0"],
            ⟨"u1", "u1@example.com", Option.none⟩, 3, Option.none⟩ : PyVal))]) :=
  claim_C10_cached_parent_rewrite [] _ "c1" "b1"
    ⟨"model", "text", Option.none, Option.none, Option.none⟩ "r1" 9
    ⟨"b1", "hi", ["r0"], ⟨"u1", "u1@example.com", Option.none⟩, 3, Option.none⟩
    (by decide)

/-- **C1, counterexample.** Pydantic's `.dict()` serializes every declared
field, so `create_conversation` persists a conversation document that DOES
contain a `blocks` key (an explicit null) and a block document that DOES
contain a `responses` key (an explicit null), contradicting "the stored
JSON document contains no 'blocks' key ... and no 'responses' key". -/
theorem claim_C1_counterexample :
    ∃ cp bp,
      s3_get (create_conversation [] "hello"
          ⟨⟨"u1", "u1@example.com", Option.none⟩, Option.none, Option.none,
            Option.none, Option.none, Option.none, Option.none, Option.none⟩
          "c1" "b1" 0).2
        (get_s3_key "c1" Option.none Option.none) = .ok (pdict cp) ∧
      dlookup "blocks" cp = some PyVal.none ∧
      s3_get (create_conversation [] "hello"
          ⟨⟨"u1", "u1@example.com", Option.none⟩, Option.none, Option.none,
            Option.none, Option.none, Option.none, Option.none, Option.none⟩
          "c1" "b1" 0).2
        (get_s3_key "c1" (some "b1") Option.none) = .ok (pdict bp) ∧
      dlookup "responses" bp = some PyVal.none :=
  ⟨Conversation.dictPairs ⟨"c1", ⟨"u1", "u1@example.com", Option.none⟩, 0, 0,
      "OPEN", some "hello", some "UNKNOWN", ["b1"], Option.none⟩,
   Block.dictPairs ⟨"b1", "hello", [], ⟨"u1", "u1@example.com", Option.none⟩,
      0, Option.none⟩,
   by decide, by decide, by decide, by decide⟩

/-- **C1, amended.** Every operation that persists a Conversation or Block
through the pydantic serializer writes the `blocks` / `responses` key: it
is present with value null when the field is unset, and with the caller's
serialized value otherwise.  `create_block`'s conversation rewrite passes
the raw stored dict through, and `create_response` persists the response
and then the re-validated parent block (whose `responses` key is again
always serialized). -/
theorem claim_C1_transient_fields :
    (∀ (store : Store) (query : String) (pc : PartialConversation)
        (newCid newBid : String) (epoch : Int),
      ∃ cp bp,
        (create_conversation store query pc newCid newBid epoch).2 =
          (get_s3_key newCid (some newBid) Option.none, pdict bp) ::
          (get_s3_key newCid Option.none Option.none, pdict cp) :: store ∧
        dlookup "blocks" cp = some (optBlockListV pc.blocks) ∧
        dlookup "responses" bp = some PyVal.none) ∧
    (∀ (store : Store) (cid : String) (c : Conversation),
      (update_conversation store cid c).2 =
        (get_s3_key cid Option.none Option.none, pdict c.dictPairs) :: store ∧
      dlookup "blocks" c.dictPairs = some (optBlockListV c.blocks)) ∧
    (∀ (store : Store) (cid : String) (pb : PartialBlock) (newBid : String)
        (epoch : Int) (b : Block) (store' : Store),
      create_block store cid pb newBid epoch = (.ok b, store') →
      ∃ cp,
        store' =
          (get_s3_key cid Option.none Option.none, pdict cp) ::
          (get_s3_key cid (some newBid) Option.none, pdict b.dictPairs) ::
          store ∧
        dlookup "responses" b.dictPairs = some PyVal.none) ∧
    (∀ (store : Store) (cid bid : String) (b : Block),
      (update_block store cid bid b).2 =
        (get_s3_key cid (some bid) Option.none, pdict b.dictPairs) :: store ∧
      dlookup "responses" b.dictPairs = some (optRespListV b.responses)) ∧
    (∀ (store : Store) (cache : Cache) (cid bid : String)
        (pr : PartialResponse) (newRid : String) (epoch : Int) (r : Response)
        (store' : Store) (cache' : Cache),
      create_response store cache cid bid pr newRid epoch =
        ((.ok r, store'), cache') →
      ∃ bp v,
        store' =
          (get_s3_key cid (some bid) Option.none, pdict bp) ::
          (get_s3_key cid (some bid) (some newRid), pdict r.dictPairs) ::
          store ∧
        dlookup "responses" bp = some v) := by
  refine ⟨?_, ?_, ?_, ?_, ?_⟩
  · intro store query pc newCid newBid epoch
    exact ⟨Conversation.dictPairs ⟨newCid, pc.createdBy, epoch, epoch,
        pc.status.getD "OPEN", some (pc.summaryText.getD query),
        some (pc.summaryType.getD "UNKNOWN"),
        (pc.blockIds.getD []) ++ [newBid], pc.blocks⟩,
      Block.dictPairs ⟨newBid, query, [], pc.createdBy, epoch, Option.none⟩,
      rfl, rfl, rfl⟩
  · intro store cid c
    exact ⟨rfl, rfl⟩
  · intro store cid pb newBid epoch b store' h
    unfold create_block at h
    dsimp only [] at h
    split at h
    · injection h with h1 h2
      injection h1
    · split at h
      · injection h with h1 h2
        injection h1
      · split at h
        · injection h with h1 h2
          injection h1 with h1
          subst h1
          subst h2
          exact ⟨_, rfl, rfl⟩
        · injection h with h1 h2
          injection h1
    · injection h with h1 h2
      injection h1
  · intro store cid bid b
    exact ⟨rfl, rfl⟩
  · intro store cache cid bid pr newRid epoch r store' cache' h
    unfold create_response at h
    dsimp only [] at h
    split at h
    · injection h with h1 h2
      injection h1 with h3 h4
      injection h3
    · split at h
      · split at h
        · injection h with h1 h2
          injection h1 with h3 h4
          injection h3
        · injection h with h1 h2
          injection h1 with h1 h3
          injection h1 with h1
          subst h1
          subst h3
          subst h2
          exact ⟨_, _, rfl, rfl⟩
      all_goals
        injection h with h1 h2
        injection h1 with h3 h4
        injection h3

/-- Closed witness for C1: a successful `create_block` against a store
holding a conversation with empty `blockIds`; its two writes are the
conversation rewrite on top of the block document, whose `responses` key is
an explicit null. -/
theorem claim_C1_witness :
    ∃ cp,
      ((get_s3_key "c1" Option.none Option.none,
          pdict [("blockIds", plist [PyVal.str "b1"])]) ::
        (get_s3_key "c1" (some "b1") Option.none,
          pdict (Block.dictPairs ⟨"b1", "hi", [], default_created_by, 0,
            Option.none⟩)) ::
        [(get_s3_key "c1" Option.none Option.none,
          pdict [("blockIds", plist [])])] =
        (get_s3_key "c1" Option.none Option.none, pdict cp) ::
        (get_s3_key "c1" (some "b1") Option.none,
          pdict (Block.dictPairs ⟨"b1", "hi", [], default_created_by, 0,
            Option.none⟩)) ::
        [(get_s3_key "c1" Option.none Option.none,
          pdict [("blockIds", plist [])])] ∧
      dlookup "responses" (Block.dictPairs ⟨"b1", "hi", [],
        default_created_by, 0, Option.none⟩) = some PyVal.none) :=
  claim_C1_transient_fields.2.2.1
    [(get_s3_key "c1" Option.none Option.none,
      pdict [("blockIds", plist [])])]
    "c1" ⟨"hi", Option.none, Option.none⟩ "b1" 0
    ⟨"b1", "hi", [], default_created_by, 0, Option.none⟩
    ((get_s3_key "c1" Option.none Option.none,
        pdict [("blockIds", plist [PyVal.str "b1"])]) ::
      (get_s3_key "c1" (some "b1") Option.none,
        pdict (Block.dictPairs ⟨"b1", "hi", [], default_created_by, 0,
          Option.none⟩)) ::
      [(get_s3_key "c1" Option.none Option.none,
        pdict [("blockIds", plist [])])])
    rfl

end ConvHist
